import Mathlib

/-!
# Device partitioning and health monitoring of the GPU-share device plugin

A shallow embedding of `nvidia.go`: the partitioner (`getDevices`,
`getSharedDeviceID`, `getRealDeviceID`) and the health monitor (`watchXIDs`).

Conventions of the embedding.

* A Go `string` is a Lean `String`.  The only index the program computes is the
  position of the ASCII byte `-`, which never occurs inside a multi-byte UTF-8
  sequence, so cutting at the character position and cutting at the byte
  position give the same prefix.
* A Go `int` is an `Int`.  The only arithmetic is the share counter `j++`,
  which stays in `1 .. gpuShareNum + 1`.
* A run-time panic of a slice expression is the value `none`.
* The external collaborators (`nvml`, `strconv`, `fmt`) are not part of the
  program: what they return is an input of the model, and `fmt.Sprintf` is
  modelled after the documented behaviour of the verb `%03d`.
* A send `xids <- d` appends `d` to the list of emitted devices.
-/

namespace Nvidia

/-! ## Data model -/

/-- The record `pluginapi.Device`: an id and a health string. -/
structure Device where
  ID : String
  Health : String
  deriving DecidableEq, Repr

/-- The constant `pluginapi.Healthy`. -/
def Healthy : String := "Healthy"

/-- The constant `pluginapi.Unhealthy`. -/
def Unhealthy : String := "Unhealthy"

/-! ## `fmt.Sprintf("%s-%03d", uuid, shareId)` -/

/-- The digit loop of the integer formatter: while `u >= 10` the digit
`u - (u/10)*10` is written in front of the buffer and `u` becomes `u/10`; the
last digit `u < 10` is written after the loop.  The first argument bounds the
number of iterations; `u + 1` is always enough (`fmtDigits_fuel`). -/
def fmtDigits : Nat → Nat → List Char → List Char
  | 0, _, buf => buf
  | fuel + 1, u, buf =>
    if 10 ≤ u then fmtDigits fuel (u / 10) (Nat.digitChar (u - u / 10 * 10) :: buf)
    else Nat.digitChar u :: buf

/-- The verb `%03d` applied to an integer: the decimal digits of the absolute
value, zeros in front up to the width 3 (the sign takes one place of the width),
then the sign for a negative number. -/
def fmt03d (n : Int) : List Char :=
  let digits := fmtDigits (n.natAbs + 1) n.natAbs []
  if n < 0 then
    '-' :: (List.replicate (2 - digits.length) '0' ++ digits)
  else
    List.replicate (3 - digits.length) '0' ++ digits

/-- The function `getSharedDeviceID`: `fmt.Sprintf("%s-%03d", uuid, shareId)`. -/
def getSharedDeviceID (uuid : String) (shareId : Int) : String :=
  String.mk (uuid.data ++ '-' :: fmt03d shareId)

/-! ## `getRealDeviceID` -/

/-- The scan of `strings.LastIndex(s, "-")` for a one-byte separator: the index
`i` runs from `len(s) - 1` down to `0` and the first `i` with `s[i] == c` is
returned; `-1` when there is none.  `lastIndexFrom s c n` scans the indices
below `n`. -/
def lastIndexFrom (s : List Char) (c : Char) : Nat → Int
  | 0 => -1
  | i + 1 => if s.get? i = some c then (i : Int) else lastIndexFrom s c i

/-- The call `strings.LastIndex(id, "-")`. -/
def LastIndex (s : String) (c : Char) : Int :=
  lastIndexFrom s.data c s.data.length

/-- The function `getRealDeviceID`: `id[0:strings.LastIndex(id, "-")]`.  The slice
expression panics when the index is `-1`, which is the value `none`. -/
def getRealDeviceID (id : String) : Option String :=
  let i := LastIndex id '-'
  if 0 ≤ i then some (String.mk (id.data.take i.toNat)) else none

/-! ## `getDevices` -/

/-- The inner loop of `getDevices`, lines 37 to 42:
`for j := 1; j <= gpuShareNum; j++ { devs = append(devs, ...) }`.
The first argument bounds the number of iterations. -/
def shareLoop (uuid : String) (gpuShareNum : Int) : Nat → Int → List Device → List Device
  | 0, _, devs => devs
  | fuel + 1, j, devs =>
    if j ≤ gpuShareNum then
      shareLoop uuid gpuShareNum fuel (j + 1)
        (devs ++ [{ ID := getSharedDeviceID uuid j, Health := Healthy }])
    else devs

/-- The outer loop of `getDevices`, lines 34 to 43, over the uuids of the devices
`nvml.NewDeviceLite(0)`, ..., `nvml.NewDeviceLite(n-1)` in that order. -/
def deviceLoop (gpuShareNum : Int) : List String → List Device → List Device
  | [], devs => devs
  | uuid :: rest, devs =>
    deviceLoop gpuShareNum rest (shareLoop uuid gpuShareNum gpuShareNum.toNat 1 devs)

/-- The function `getDevices`.  `uuids` are the uuids of the enumerated physical
devices and `atoi` is what `strconv.Atoi(os.Getenv(envGPUShareDegree))`
returned: `some k` for the integer `k`, `none` for an error. -/
def getDevices (uuids : List String) (atoi : Option Int) : List Device :=
  let gpuShareNum : Int :=
    match atoi with
    | some k => k
    | none => 5
  deviceLoop gpuShareNum uuids []

/-! ## `watchXIDs` -/

/-- The record `nvml.Event`: an optional uuid (a `*string`), the event type and
the error data. -/
structure Event where
  UUID : Option String
  Etype : Nat
  Edata : Nat
  deriving DecidableEq, Repr

/-- The constant `nvml.XidCriticalError` (`nvmlEventTypeXidCriticalError`). -/
def XidCriticalError : Nat := 8

/-- What `nvml.WaitForEvent(eventSet, 5000)` returned: the event and the error,
`none` for a nil error and `some msg` for an error with message `msg`. -/
structure WaitResult where
  e : Event
  err : Option String
  deriving DecidableEq, Repr

/-- What the monitor meets in one pass of the `for` loop: the cancellation
channel `ctx.Done()` is ready, or it is not and the wait returns `w`. -/
inductive Tick where
  | cancelled
  | wait (w : WaitResult)
  deriving DecidableEq, Repr

/-- Where control is after the part of the run that was looked at. -/
inductive Status where
  /-- Still inside the function (registration done, loop not left). -/
  | Running
  /-- Returned through `case <-ctx.Done(): return`. -/
  | Stopped
  /-- The call `log.Panicln("Fatal:", err)` of line 82 with the message of `err`. -/
  | Fatal (msg : String)
  /-- Run-time panic of the slice expression in `getRealDeviceID`. -/
  | SliceOutOfRange
  deriving DecidableEq, Repr

/-- The observable behaviour of a run: the calls of
`nvml.RegisterEventForDevice` in call order, each the uuid passed and the error
returned (`none` for nil); the devices sent on `xids` in order; the number of
passes of the event loop that were begun; and where control ended. -/
structure Trace where
  registered : List (String × Option String)
  emitted : List Device
  iterations : Nat
  status : Status
  deriving DecidableEq, Repr

/-- The deferred `nvml.DeleteEventSet(eventSet)` has run: it runs when the
function returns and when it panics. -/
def Trace.released (t : Trace) : Bool :=
  match t.status with
  | .Running => false
  | _ => true

/-- The call `strings.HasSuffix(s, suffix)`. -/
def HasSuffix (s suffix : String) : Bool :=
  suffix.data.isSuffixOf s.data

/-- The registration oracle: `reg calls uuid` is what
`nvml.RegisterEventForDevice(eventSet, nvml.XidCriticalError, uuid)` returns
when `calls` are the uuids registered before on this event set; `none` is a nil
error and `some msg` an error with message `msg`. -/
abbrev Registrar := List String → String → Option String

/-- The registration loop of `watchXIDs`, lines 72 to 84.  `calls` and `out` are
the registration calls made and the devices sent so far. -/
def registerLoop (reg : Registrar) :
    List Device → List (String × Option String) → List Device → Trace
  | [], calls, out => { registered := calls, emitted := out, iterations := 0, status := .Running }
  | d :: rest, calls, out =>
    match getRealDeviceID d.ID with
    | none => { registered := calls, emitted := out, iterations := 0, status := .SliceOutOfRange }
    | some uuid =>
      match reg (calls.map Prod.fst) uuid with
      | none => registerLoop reg rest (calls ++ [(uuid, none)]) out
      | some msg =>
        if HasSuffix msg "Not Supported" then
          registerLoop reg rest (calls ++ [(uuid, some msg)]) (out ++ [d])
        else
          { registered := calls ++ [(uuid, some msg)], emitted := out, iterations := 0,
            status := .Fatal msg }

/-- The loop of lines 107 to 109: `for _, d := range devs { xids <- d }`. -/
def sendAll : List Device → List Device → List Device
  | [], out => out
  | d :: rest, out => sendAll rest (out ++ [d])

/-- The loop of lines 113 to 117: every device whose decoded id equals the uuid
of the event is sent.  The second component is `false` when `getRealDeviceID`
panicked; the devices sent before the panic stay sent. -/
def sendMatching (uuid : String) : List Device → List Device → List Device × Bool
  | [], out => (out, true)
  | d :: rest, out =>
    match getRealDeviceID d.ID with
    | none => (out, false)
    | some real =>
      if real = uuid then sendMatching uuid rest (out ++ [d])
      else sendMatching uuid rest out

/-- One pass of the event loop after the cancellation check, lines 93 to 117, for
the wait result `w`: the devices sent during the pass, and `false` when the pass
ended in a panic of `getRealDeviceID`. -/
def iteration (devs : List Device) (w : WaitResult) : List Device × Bool :=
  if w.err ≠ none ∧ w.e.Etype ≠ XidCriticalError then ([], true)
  else if w.e.Edata = 31 ∨ w.e.Edata = 43 ∨ w.e.Edata = 45 then ([], true)
  else
    match w.e.UUID with
    | none => (sendAll devs [], true)
    | some uuid =>
      if uuid.length = 0 then (sendAll devs [], true)
      else sendMatching uuid devs []

/-- The event loop of `watchXIDs`, lines 86 to 118, run on the ticks the
environment supplies, starting from the trace `t` reached so far. -/
def eventLoop (devs : List Device) : List Tick → Trace → Trace
  | [], t => t
  | .cancelled :: _, t => { t with iterations := t.iterations + 1, status := .Stopped }
  | .wait w :: rest, t =>
    match iteration devs w with
    | (out, true) =>
      eventLoop devs rest { t with emitted := t.emitted ++ out, iterations := t.iterations + 1 }
    | (out, false) =>
      { t with emitted := t.emitted ++ out, iterations := t.iterations + 1,
               status := .SliceOutOfRange }

/-- The initialization phase of `watchXIDs`: the registration loop on an empty
event set. -/
def initPhase (reg : Registrar) (devs : List Device) : Trace :=
  registerLoop reg devs [] []

/-- The function `watchXIDs`, run with the registration oracle `reg` on the
device list `devs` while the environment supplies `ticks`. -/
def watchXIDs (reg : Registrar) (devs : List Device) (ticks : List Tick) : Trace :=
  let t := initPhase reg devs
  match t.status with
  | .Running => eventLoop devs ticks t
  | _ => t

/-- The test of line 74 on a returned error: `err != nil` and the message ends
in `Not Supported`. -/
def notSupported (err : Option String) : Bool :=
  match err with
  | some msg => HasSuffix msg "Not Supported"
  | none => false

/-- The test that reaches line 82: `err != nil` and the message does not end in
`Not Supported`. -/
def fatalResult (err : Option String) : Bool :=
  match err with
  | some msg => !HasSuffix msg "Not Supported"
  | none => false

/-- The decoded uuids of a device list, in list order. -/
def realIDs (devs : List Device) : List String :=
  devs.filterMap (fun d => getRealDeviceID d.ID)

/-! ## `strconv.Atoi` -/

/-- The value of a decimal digit byte, `none` for any other byte. -/
def digitValue (c : Char) : Option Nat :=
  if '0' ≤ c ∧ c ≤ '9' then some (c.toNat - '0'.toNat) else none

/-- The digit scan of `strconv.ParseUint` in base 10: every byte must be a
decimal digit; `acc` is the value read so far. -/
def parseDigits : List Char → Nat → Option Nat
  | [], acc => some acc
  | c :: cs, acc =>
    match digitValue c with
    | some d => parseDigits cs (acc * 10 + d)
    | none => none

/-- The call `strconv.Atoi(s)` after its documentation: an optional sign `+` or
`-`, then one or more decimal digits; the value must fit the 64-bit `int`.
`none` is a non-nil error (syntax or range), `some k` the integer with a nil
error. -/
def Atoi (s : String) : Option Int :=
  let signed : Bool × List Char :=
    match s.data with
    | '+' :: rest => (false, rest)
    | '-' :: rest => (true, rest)
    | rest => (false, rest)
  if signed.2 = [] then none
  else
    match parseDigits signed.2 0 with
    | none => none
    | some n =>
      if signed.1 then (if n ≤ 2 ^ 63 then some (-(n : Int)) else none)
      else (if n < 2 ^ 63 then some (n : Int) else none)

/-! ## `watchXIDs` over the memory of the device list

The argument `devs []*pluginapi.Device` is a slice of pointers: a backing array
of addresses, and at every address a record with the fields `ID` and `Health`.
Here that memory is part of the state of the run, every statement of
`watchXIDs` takes the memory and gives back the memory it leaves, and a send
`xids <- d` sends the address `d`. -/

/-- The memory of the device list: the backing array of the slice `devs`, a list
of addresses, and the record stored at every address. -/
structure Memory where
  devs : List Nat
  record : Nat → Device

/-- The device list as it reads in a memory: the record at every address of the
backing array, in order. -/
def Memory.list (m : Memory) : List Device :=
  m.devs.map m.record

/-- The memory a device list lies in when every element is a record of its own,
as `getDevices` allocates them: the element at index `a` is stored at address
`a`. -/
def Memory.ofList (devs : List Device) : Memory :=
  { devs := List.range devs.length, record := fun a => devs.getD a { ID := "", Health := "" } }

/-- The state of a run over the memory: the memory as the statements run so far
leave it, the registration calls made, the addresses sent on `xids`, the number
of passes of the event loop begun and where control is. -/
structure Run where
  memory : Memory
  registered : List (String × Option String)
  sent : List Nat
  iterations : Nat
  status : Status

/-- What a run over the memory shows to an observer who reads the records sent
in the memory the run leaves. -/
def Run.toTrace (r : Run) : Trace :=
  { registered := r.registered, emitted := r.sent.map r.memory.record,
    iterations := r.iterations, status := r.status }

/-- The registration loop, lines 72 to 84, over the memory: `d` ranges over the
addresses of the slice, `d.ID` is read from the memory of the state, and no
statement of the body stores into it. -/
def registerLoopMem (reg : Registrar) : List Nat → Run → Run
  | [], r => r
  | d :: rest, r =>
    match getRealDeviceID (r.memory.record d).ID with
    | none => { r with status := .SliceOutOfRange }
    | some uuid =>
      match reg (r.registered.map Prod.fst) uuid with
      | none => registerLoopMem reg rest { r with registered := r.registered ++ [(uuid, none)] }
      | some msg =>
        if HasSuffix msg "Not Supported" then
          registerLoopMem reg rest
            { r with registered := r.registered ++ [(uuid, some msg)], sent := r.sent ++ [d] }
        else
          { r with registered := r.registered ++ [(uuid, some msg)], status := .Fatal msg }

/-- The loop of lines 107 to 109 over the memory: every address is sent. -/
def sendAllMem : List Nat → Run → Run
  | [], r => r
  | d :: rest, r => sendAllMem rest { r with sent := r.sent ++ [d] }

/-- The loop of lines 113 to 117 over the memory: `d.ID` is read and the address
`d` is sent when the decoded id is the uuid of the event; `false` when
`getRealDeviceID` panicked. -/
def sendMatchingMem (uuid : String) : List Nat → Run → Run × Bool
  | [], r => (r, true)
  | d :: rest, r =>
    match getRealDeviceID (r.memory.record d).ID with
    | none => (r, false)
    | some real =>
      if real = uuid then sendMatchingMem uuid rest { r with sent := r.sent ++ [d] }
      else sendMatchingMem uuid rest r

/-- One pass of the event loop after the cancellation check, lines 93 to 117,
over the memory; the loops range over the backing array as the memory of the
state holds it. -/
def iterationMem (w : WaitResult) (r : Run) : Run × Bool :=
  if w.err ≠ none ∧ w.e.Etype ≠ XidCriticalError then (r, true)
  else if w.e.Edata = 31 ∨ w.e.Edata = 43 ∨ w.e.Edata = 45 then (r, true)
  else
    match w.e.UUID with
    | none => (sendAllMem r.memory.devs r, true)
    | some uuid =>
      if uuid.length = 0 then (sendAllMem r.memory.devs r, true)
      else sendMatchingMem uuid r.memory.devs r

/-- The event loop, lines 86 to 118, over the memory. -/
def eventLoopMem : List Tick → Run → Run
  | [], r => r
  | .cancelled :: _, r => { r with iterations := r.iterations + 1, status := .Stopped }
  | .wait w :: rest, r =>
    match iterationMem w r with
    | (r2, true) => eventLoopMem rest { r2 with iterations := r2.iterations + 1 }
    | (r2, false) => { r2 with iterations := r2.iterations + 1, status := .SliceOutOfRange }

/-- The function `watchXIDs` run on the memory `m` of its argument `devs`. -/
def watchXIDsMem (reg : Registrar) (m : Memory) (ticks : List Tick) : Run :=
  let r := registerLoopMem reg m.devs
    { memory := m, registered := [], sent := [], iterations := 0, status := .Running }
  match r.status with
  | .Running => eventLoopMem ticks r
  | _ => r

/-! ## Auxiliary notions for the statements -/

/-- The devices sent by the event loop itself, for the wait results `es` and no
cancellation: what the run sent, without what the initialization had sent. -/
def loopEmitted (reg : Registrar) (devs : List Device) (es : List WaitResult) : List Device :=
  (watchXIDs reg devs (es.map Tick.wait)).emitted.drop (initPhase reg devs).emitted.length

/-- The number a list of decimal digit bytes denotes, most significant byte
first. -/
def digitsValue (l : List Char) : Nat :=
  l.foldl (fun acc c => acc * 10 + (c.toNat - '0'.toNat)) 0

/-! ## Definitions that follow the words of the specification -/

/-- The operation `EncodeId` in the words of the specification:
`<uuid>-<shareIndex zero-padded to 3 digits>`, the share index written in
decimal as `Nat.repr` writes it. -/
def EncodeId (uuid : String) (shareIndex : Nat) : String :=
  String.mk (uuid.data ++ ['-'] ++
    List.replicate (3 - (Nat.repr shareIndex).data.length) '0' ++ (Nat.repr shareIndex).data)

/-- The virtual devices derived from one physical device in the words of the
specification: share indices `1 .. shareDegree` ascending, every one healthy. -/
def sharesOf (shareDegree : Int) (uuid : String) : List Device :=
  (List.range shareDegree.toNat).map
    (fun (i : Nat) => { ID := getSharedDeviceID uuid ((i : Int) + 1), Health := Healthy })

/-- The operation `BuildVirtualDevices` in the words of the specification: the
physical devices in enumeration order, and within each the share indices
ascending. -/
def BuildVirtualDevices (uuids : List String) (shareDegree : Int) : List Device :=
  uuids.flatMap (sharesOf shareDegree)

/-! ## Lemmas on the formatter and the decoder -/

theorem digitChar_ne_dash (d : Nat) (h : d < 10) : Nat.digitChar d ≠ '-' := by
  interval_cases d <;> decide

theorem fmtDigits_no_dash (fuel : Nat) : ∀ (u : Nat) (buf : List Char),
    (∀ c ∈ buf, c ≠ '-') → ∀ c ∈ fmtDigits fuel u buf, c ≠ '-' := by
  induction fuel with
  | zero => intro u buf hbuf c hc; exact hbuf c hc
  | succ fuel ih =>
    intro u buf hbuf c hc
    unfold fmtDigits at hc
    split at hc
    · refine ih (u / 10) _ ?_ c hc
      intro x hx
      rcases List.mem_cons.mp hx with rfl | hx
      · exact digitChar_ne_dash _ (by omega)
      · exact hbuf x hx
    · rcases List.mem_cons.mp hc with rfl | hc
      · exact digitChar_ne_dash _ (by omega)
      · exact hbuf c hc

theorem fmt03d_no_dash (n : Int) (h : 0 ≤ n) : ∀ c ∈ fmt03d n, c ≠ '-' := by
  intro c hc
  unfold fmt03d at hc
  simp only [not_lt.mpr h, if_false] at hc
  rcases List.mem_append.mp hc with hc | hc
  · rw [List.eq_of_mem_replicate hc]; decide
  · exact fmtDigits_no_dash _ _ [] (by simp) c hc

theorem lastIndexFrom_append (a b : List Char) (c : Char) (hb : ∀ x ∈ b, x ≠ c) :
    ∀ k, k ≤ b.length → lastIndexFrom (a ++ c :: b) c (a.length + 1 + k) = (a.length : Int) := by
  intro k
  induction k with
  | zero =>
    intro _
    show (if (a ++ c :: b).get? a.length = some c then (a.length : Int) else _) = _
    have hget : (a ++ c :: b).get? a.length = some c := by
      rw [List.get?_eq_getElem?, List.getElem?_append_right (le_refl _)]
      simp
    rw [if_pos hget]
  | succ k ih =>
    intro hk
    show (if (a ++ c :: b).get? (a.length + 1 + k) = some c then _ else _) = _
    have hget : (a ++ c :: b).get? (a.length + 1 + k) = b.get? k := by
      rw [List.get?_eq_getElem?, List.get?_eq_getElem?,
        List.getElem?_append_right (by omega)]
      have : a.length + 1 + k - a.length = k + 1 := by omega
      rw [this, List.getElem?_cons_succ]
    have hne : b.get? k ≠ some c := by
      intro h
      exact hb c (List.get?_mem h) rfl
    rw [hget, if_neg hne]
    exact ih (by omega)

theorem getRealDeviceID_of_data (id uuid : String) (tail : List Char)
    (hid : id.data = uuid.data ++ '-' :: tail) (htail : ∀ x ∈ tail, x ≠ '-') :
    getRealDeviceID id = some uuid := by
  have hidx : LastIndex id '-' = (uuid.data.length : Int) := by
    unfold LastIndex
    rw [hid]
    have := lastIndexFrom_append uuid.data tail '-' htail tail.length (le_refl _)
    rw [List.length_append, List.length_cons]
    have hlen : uuid.data.length + (tail.length + 1) = uuid.data.length + 1 + tail.length := by
      omega
    rw [hlen]
    exact this
  unfold getRealDeviceID
  simp only [hidx, Int.natCast_nonneg, if_true, Int.toNat_ofNat, hid, List.take_left']

theorem getRealDeviceID_getSharedDeviceID (uuid : String) (k : Int) (hk : 0 ≤ k) :
    getRealDeviceID (getSharedDeviceID uuid k) = some uuid :=
  getRealDeviceID_of_data _ uuid (fmt03d k) rfl (fmt03d_no_dash k hk)

theorem fmtDigits_eq_toDigitsCore (fuel : Nat) : ∀ (u : Nat) (buf : List Char),
    fmtDigits fuel u buf = Nat.toDigitsCore 10 fuel u buf := by
  induction fuel with
  | zero => intro u buf; rfl
  | succ fuel ih =>
    intro u buf
    unfold fmtDigits Nat.toDigitsCore
    by_cases h : 10 ≤ u
    · have h0 : ¬ u / 10 = 0 := by omega
      have hd : u - u / 10 * 10 = u % 10 := by omega
      simp only [h, if_true, h0, if_false, hd]
      exact ih _ _
    · have h0 : u / 10 = 0 := by omega
      have hd : u % 10 = u := by omega
      simp only [h, if_false, h0, if_true, hd]

theorem fmtDigits_eq_repr (k : Nat) : fmtDigits (k + 1) k [] = (Nat.repr k).data := by
  rw [fmtDigits_eq_toDigitsCore]
  rfl

/-- More iterations than `u + 1` do not change what the digit loop writes. -/
theorem fmtDigits_fuel (fuel : Nat) : ∀ (fuel2 u : Nat) (buf : List Char),
    u < fuel → u < fuel2 → fmtDigits fuel u buf = fmtDigits fuel2 u buf := by
  induction fuel with
  | zero => intro fuel2 u buf h; omega
  | succ fuel ih =>
    intro fuel2 u buf h1 h2
    cases fuel2 with
    | zero => omega
    | succ fuel2 =>
      unfold fmtDigits
      by_cases h : 10 ≤ u
      · simp only [h, if_true]
        exact ih fuel2 _ _ (by omega) (by omega)
      · simp only [h, if_false]

theorem getSharedDeviceID_eq_EncodeId (uuid : String) (k : Nat) :
    getSharedDeviceID uuid (k : Int) = EncodeId uuid k := by
  unfold getSharedDeviceID EncodeId fmt03d
  have hneg : ¬ ((k : Int) < 0) := by omega
  simp only [hneg, if_false, Int.natAbs_ofNat, fmtDigits_eq_repr]
  simp

theorem shareLoop_eq (uuid : String) (K : Int) (fuel : Nat) : ∀ (j : Int) (devs : List Device),
    shareLoop uuid K fuel j devs =
      devs ++ (List.range (min fuel (K + 1 - j).toNat)).map
        (fun (i : Nat) =>
          ({ ID := getSharedDeviceID uuid (j + (i : Int)), Health := Healthy } : Device)) := by
  induction fuel with
  | zero => intro j devs; simp [shareLoop]
  | succ fuel ih =>
    intro j devs
    unfold shareLoop
    by_cases h : j ≤ K
    · have hn : (K + 1 - j).toNat = (K + 1 - (j + 1)).toNat + 1 := by omega
      rw [if_pos h, ih, hn, Nat.add_min_add_right, List.range_succ_eq_map, List.map_cons,
        List.map_map, List.append_assoc]
      congr 1
      simp only [List.singleton_append, Nat.cast_zero, add_zero]
      congr 1
      apply List.map_congr_left
      intro i _
      simp only [Function.comp, Nat.succ_eq_add_one, Nat.cast_add, Nat.cast_one]
      congr 2
      omega
    · have hn : (K + 1 - j).toNat = 0 := by omega
      rw [if_neg h, hn]
      simp

/-- The bound `gpuShareNum.toNat` on the inner loop is enough: a larger one gives
the same list, which is the shares `1 .. gpuShareNum` appended to `devs`. -/
theorem shareLoop_fuel (uuid : String) (K : Int) (fuel : Nat) (devs : List Device)
    (h : K.toNat ≤ fuel) : shareLoop uuid K fuel 1 devs = devs ++ sharesOf K uuid := by
  rw [shareLoop_eq]
  have hm : min fuel (K + 1 - 1).toNat = K.toNat := by
    rw [add_sub_cancel_right]; exact min_eq_right h
  rw [hm]
  unfold sharesOf
  congr 1
  apply List.map_congr_left
  intro i _
  congr 2
  omega

theorem deviceLoop_eq (K : Int) (uuids : List String) : ∀ devs : List Device,
    deviceLoop K uuids devs = devs ++ BuildVirtualDevices uuids K := by
  induction uuids with
  | nil => intro devs; simp [deviceLoop, BuildVirtualDevices]
  | cons u rest ih =>
    intro devs
    unfold deviceLoop
    rw [shareLoop_fuel u K K.toNat devs (le_refl _), ih]
    simp [BuildVirtualDevices, List.flatMap_cons]

theorem getDevices_eq (uuids : List String) (K : Int) :
    getDevices uuids (some K) = BuildVirtualDevices uuids K := by
  unfold getDevices
  simp only [deviceLoop_eq, List.nil_append]

theorem length_BuildVirtualDevices (uuids : List String) (K : Int) :
    (BuildVirtualDevices uuids K).length = uuids.length * K.toNat := by
  unfold BuildVirtualDevices
  induction uuids with
  | nil => simp
  | cons u rest ih =>
    rw [List.flatMap_cons, List.length_append, ih]
    simp [sharesOf, Nat.add_mul, Nat.add_comm]

theorem fmtDigits_step (u : Nat) (buf : List Char) :
    fmtDigits (u + 1) u buf =
      if 10 ≤ u then fmtDigits (u / 10 + 1) (u / 10) (Nat.digitChar (u % 10) :: buf)
      else Nat.digitChar u :: buf := by
  have hd : u - u / 10 * 10 = u % 10 := by omega
  show (if 10 ≤ u then fmtDigits u (u / 10) (Nat.digitChar (u - u / 10 * 10) :: buf)
    else Nat.digitChar u :: buf) = _
  by_cases h : 10 ≤ u
  · rw [if_pos h, if_pos h, hd]
    exact fmtDigits_fuel _ _ _ _ (by omega) (by omega)
  · rw [if_neg h, if_neg h]

theorem fmt03d_three_digits (j : Nat) (hj : j ≤ 999) :
    fmt03d (j : Int) =
      [Nat.digitChar (j / 100), Nat.digitChar (j / 10 % 10), Nat.digitChar (j % 10)] := by
  unfold fmt03d
  have hneg : ¬ ((j : Int) < 0) := by omega
  simp only [hneg, if_false, Int.natAbs_ofNat]
  rw [fmtDigits_step]
  by_cases h1 : 10 ≤ j
  · rw [if_pos h1, fmtDigits_step]
    by_cases h2 : 10 ≤ j / 10
    · rw [if_pos h2, fmtDigits_step]
      have h3 : ¬ 10 ≤ j / 10 / 10 := by omega
      have e1 : j / 10 / 10 = j / 100 := by omega
      rw [if_neg h3, e1]
      rfl
    · rw [if_neg h2]
      have e1 : j / 100 = 0 := by omega
      have e2 : j / 10 % 10 = j / 10 := by omega
      rw [e1, e2]
      rfl
  · rw [if_neg h1]
    have e1 : j / 100 = 0 := by omega
    have e2 : j / 10 % 10 = 0 := by omega
    have e3 : j % 10 = j := by omega
    rw [e1, e2, e3]
    rfl

/-! ## The device list (C1) -/

/-- C1: for every list of physical uuids and every share degree `K ≥ 1` the list
built by `getDevices` is the concatenation, over the uuids in enumeration order,
of the `K` records with id `getSharedDeviceID uuid j` for `j = 1, ..., K`
ascending; such an id is the uuid, then `-`, then `j` in decimal padded with
zeros to 3 digits (for `j ≤ 999` exactly the three digits of `j`); and every
record is healthy. -/
theorem getDevices_concat_shares (uuids : List String) (K : Int) (hK : 1 ≤ K) :
    getDevices uuids (some K) =
        uuids.flatMap (fun uuid => (List.range K.toNat).map (fun (i : Nat) =>
          ({ ID := getSharedDeviceID uuid ((i : Int) + 1), Health := Healthy } : Device)))
      ∧ ((getDevices uuids (some K)).length : Int) = (uuids.length : Int) * K
      ∧ (∀ (uuid : String) (j : Nat), getSharedDeviceID uuid (j : Int) = EncodeId uuid j)
      ∧ (∀ (uuid : String) (j : Nat), 1 ≤ j → j ≤ 999 →
          getSharedDeviceID uuid (j : Int) = String.mk (uuid.data ++
            ['-', Nat.digitChar (j / 100), Nat.digitChar (j / 10 % 10), Nat.digitChar (j % 10)]))
      ∧ ∀ d ∈ getDevices uuids (some K), d.Health = Healthy := by
  refine ⟨getDevices_eq uuids K, ?_, getSharedDeviceID_eq_EncodeId, ?_, ?_⟩
  · rw [getDevices_eq, length_BuildVirtualDevices, Nat.cast_mul, Int.toNat_of_nonneg (by omega)]
  · intro uuid j _ hj
    unfold getSharedDeviceID
    rw [fmt03d_three_digits j hj]
  · intro d hd
    rw [getDevices_eq] at hd
    unfold BuildVirtualDevices at hd
    rcases List.mem_flatMap.mp hd with ⟨u, _, hu⟩
    unfold sharesOf at hu
    rcases List.mem_map.mp hu with ⟨i, _, rfl⟩
    rfl

theorem getDevices_concat_shares_witness :
    (1 : Int) ≤ 3 ∧
    getDevices ["GPU-a", "GPU-b"] (some 3) =
      [⟨"GPU-a-001", "Healthy"⟩, ⟨"GPU-a-002", "Healthy"⟩, ⟨"GPU-a-003", "Healthy"⟩,
       ⟨"GPU-b-001", "Healthy"⟩, ⟨"GPU-b-002", "Healthy"⟩, ⟨"GPU-b-003", "Healthy"⟩] :=
  ⟨by decide, (getDevices_concat_shares ["GPU-a", "GPU-b"] 3 (by decide)).1.trans (by decide)⟩

/-! ## The decoder undoes the encoder (C4) -/

/-- C4: for every uuid, also one that contains `-` itself, and every share index
`k` with `1 ≤ k ≤ 999`, `getRealDeviceID (getSharedDeviceID uuid k)` returns `uuid`. -/
theorem getRealDeviceID_getSharedDeviceID_roundtrip (uuid : String) (k : Int)
    (h1 : 1 ≤ k) (h2 : k ≤ 999) :
    getRealDeviceID (getSharedDeviceID uuid k) = some uuid := by
  have hk : 0 ≤ k ∧ k ≤ 999 := ⟨by omega, h2⟩
  exact getRealDeviceID_getSharedDeviceID uuid k hk.1

theorem getRealDeviceID_getSharedDeviceID_roundtrip_witness :
    (1 : Int) ≤ 7 ∧ (7 : Int) ≤ 999 ∧
    getRealDeviceID (getSharedDeviceID "GPU-fef8089b-4820-abfc-e83e-94318197576e" 7) =
      some "GPU-fef8089b-4820-abfc-e83e-94318197576e" :=
  ⟨by decide, by decide,
    getRealDeviceID_getSharedDeviceID_roundtrip "GPU-fef8089b-4820-abfc-e83e-94318197576e" 7
      (by decide) (by decide)⟩

/-! ## One pass of the event loop (C3, C6, C7) -/

theorem sendAll_eq (devs : List Device) : ∀ out : List Device, sendAll devs out = out ++ devs := by
  induction devs with
  | nil => intro out; simp [sendAll]
  | cons d rest ih => intro out; simp [sendAll, ih]

/-- C3: for every device list and every event of the critical-fault type with a
non-benign error code and no device identifier, one pass of the event loop sends
the device list itself, every element once and in list order, and the loop goes
on. -/
theorem iteration_no_uuid_sends_all (devs : List Device) (w : WaitResult)
    (htype : w.e.Etype = XidCriticalError)
    (hdata : w.e.Edata ≠ 31 ∧ w.e.Edata ≠ 43 ∧ w.e.Edata ≠ 45)
    (huuid : w.e.UUID = none) :
    iteration devs w = (devs, true) ∧
    ∀ t : Trace, eventLoop devs [Tick.wait w] t =
      { t with emitted := t.emitted ++ devs, iterations := t.iterations + 1 } := by
  have hit : iteration devs w = (devs, true) := by
    unfold iteration
    rw [if_neg (by simp [htype]), if_neg (by simp [hdata.1, hdata.2.1, hdata.2.2]), huuid]
    simp [sendAll_eq]
  refine ⟨hit, ?_⟩
  intro t
  simp [eventLoop, hit]

theorem iteration_no_uuid_sends_all_witness :
    (8 : Nat) = XidCriticalError ∧ ((48 : Nat) ≠ 31 ∧ (48 : Nat) ≠ 43 ∧ (48 : Nat) ≠ 45) ∧
    iteration [⟨"GPU-a-001", Healthy⟩, ⟨"GPU-b-001", Healthy⟩] ⟨⟨none, 8, 48⟩, none⟩ =
      ([⟨"GPU-a-001", Healthy⟩, ⟨"GPU-b-001", Healthy⟩], true) :=
  ⟨rfl, by decide,
    (iteration_no_uuid_sends_all [⟨"GPU-a-001", Healthy⟩, ⟨"GPU-b-001", Healthy⟩]
      ⟨⟨none, 8, 48⟩, none⟩ rfl (by decide) rfl).1⟩

/-- C6: for every device list and every wait result whose error data is 31, 43
or 45, whatever the event type, the error and the identifier, one pass of the
event loop sends nothing and the loop goes on. -/
theorem iteration_benign_sends_nothing (devs : List Device) (w : WaitResult)
    (hdata : w.e.Edata = 31 ∨ w.e.Edata = 43 ∨ w.e.Edata = 45) :
    iteration devs w = ([], true) ∧
    ∀ t : Trace, eventLoop devs [Tick.wait w] t = { t with iterations := t.iterations + 1 } := by
  have hit : iteration devs w = ([], true) := by
    unfold iteration
    by_cases h : w.err ≠ none ∧ w.e.Etype ≠ XidCriticalError
    · rw [if_pos h]
    · rw [if_neg h, if_pos hdata]
  refine ⟨hit, ?_⟩
  intro t
  simp [eventLoop, hit]

theorem iteration_benign_sends_nothing_witness :
    ((43 : Nat) = 31 ∨ (43 : Nat) = 43 ∨ (43 : Nat) = 45) ∧
    iteration [⟨"GPU-a-001", Healthy⟩] ⟨⟨none, 8, 43⟩, none⟩ = ([], true) :=
  ⟨by decide,
    (iteration_benign_sends_nothing [⟨"GPU-a-001", Healthy⟩] ⟨⟨none, 8, 43⟩, none⟩
      (by decide)).1⟩

/-- C7, the code at the failing input: the wait returns without error an event of
type 1, which is not the critical-fault type, with error data 0 and no uuid; the
guard `err != nil && e.Etype != nvml.XidCriticalError` is false because `err` is
nil, and the pass sends the whole device list. -/
theorem iteration_other_type_without_error_sends :
    (1 : Nat) ≠ XidCriticalError ∧
    iteration [⟨"GPU-a-001", Healthy⟩] ⟨⟨none, 1, 0⟩, none⟩ = ([⟨"GPU-a-001", Healthy⟩], true) := by
  decide

/-- The part of C7 the code does: a wait that returns an error together with an
event whose type is not the critical-fault type (a timeout returns the zero
event) sends nothing and the loop goes on. -/
theorem iteration_error_other_type_sends_nothing (devs : List Device) (w : WaitResult)
    (herr : w.err ≠ none) (htype : w.e.Etype ≠ XidCriticalError) :
    iteration devs w = ([], true) := by
  unfold iteration
  rw [if_pos ⟨herr, htype⟩]

/-! ## Devices grouped by decoded uuid (C2, C5) -/

theorem real_of_mem_sharesOf (K : Int) (u : String) (d : Device) (hd : d ∈ sharesOf K u) :
    getRealDeviceID d.ID = some u := by
  unfold sharesOf at hd
  rcases List.mem_map.mp hd with ⟨i, _, rfl⟩
  exact getRealDeviceID_getSharedDeviceID u _ (by omega)

theorem real_of_mem_build (uuids : List String) (K : Int) (d : Device)
    (hd : d ∈ BuildVirtualDevices uuids K) : ∃ u ∈ uuids, getRealDeviceID d.ID = some u := by
  unfold BuildVirtualDevices at hd
  rcases List.mem_flatMap.mp hd with ⟨u, hu, hdu⟩
  exact ⟨u, hu, real_of_mem_sharesOf K u d hdu⟩

theorem filter_sharesOf (K : Int) (u P : String) :
    (sharesOf K u).filter (fun d => decide (getRealDeviceID d.ID = some P)) =
      if u = P then sharesOf K u else [] := by
  by_cases h : u = P
  · rw [if_pos h, List.filter_eq_self]
    intro d hd
    simp [real_of_mem_sharesOf K u d hd, h]
  · rw [if_neg h, List.filter_eq_nil_iff]
    intro d hd
    simp [real_of_mem_sharesOf K u d hd, h]

theorem filter_build (uuids : List String) (K : Int) (P : String) (hnd : uuids.Nodup) :
    (BuildVirtualDevices uuids K).filter (fun d => decide (getRealDeviceID d.ID = some P)) =
      if P ∈ uuids then sharesOf K P else [] := by
  unfold BuildVirtualDevices
  induction uuids with
  | nil => simp
  | cons u rest ih =>
    have hnd2 := List.nodup_cons.mp hnd
    rw [List.flatMap_cons, List.filter_append, ih hnd2.2, filter_sharesOf]
    by_cases h : u = P
    · subst h
      simp [hnd2.1]
    · have h2 : ¬ P = u := fun e => h e.symm
      simp [h, h2]

theorem sendMatching_eq (uuid : String) (devs : List Device) :
    ∀ out : List Device, (∀ d ∈ devs, ∃ u, getRealDeviceID d.ID = some u) →
      sendMatching uuid devs out =
        (out ++ devs.filter (fun d => decide (getRealDeviceID d.ID = some uuid)), true) := by
  induction devs with
  | nil => intro out _; simp [sendMatching]
  | cons d rest ih =>
    intro out hdec
    obtain ⟨u, hu⟩ := hdec d (List.mem_cons_self _ _)
    have hrest : ∀ x ∈ rest, ∃ u, getRealDeviceID x.ID = some u :=
      fun x hx => hdec x (List.mem_cons_of_mem _ hx)
    unfold sendMatching
    rw [hu]
    by_cases h : u = uuid
    · simp [h, ih _ hrest, List.filter_cons, hu]
    · simp [h, ih _ hrest, List.filter_cons, hu]

theorem length_ne_zero_of_ne_empty (P : String) (hP : P ≠ "") : ¬ P.length = 0 := by
  intro h
  apply hP
  cases P with
  | mk data =>
    cases data with
    | nil => rfl
    | cons c cs => simp [String.length] at h

theorem iteration_uuid_eq_filter (devs : List Device) (w : WaitResult) (P : String)
    (hdec : ∀ d ∈ devs, ∃ u, getRealDeviceID d.ID = some u)
    (htype : w.e.Etype = XidCriticalError)
    (hdata : w.e.Edata ≠ 31 ∧ w.e.Edata ≠ 43 ∧ w.e.Edata ≠ 45)
    (huuid : w.e.UUID = some P) (hP : P ≠ "") :
    iteration devs w =
      (devs.filter (fun d => decide (getRealDeviceID d.ID = some P)), true) := by
  unfold iteration
  rw [if_neg (by simp [htype]), if_neg (by simp [hdata.1, hdata.2.1, hdata.2.2]), huuid]
  simp only [length_ne_zero_of_ne_empty P hP, if_false]
  rw [sendMatching_eq P devs [] hdec]
  simp

/-- C2, the claim as stated fails: the identifier `""` matches no physical
device of the list built from `GPU-a`, and the pass sends `GPU-a-001`. -/
theorem iteration_empty_uuid_sends_unmatched :
    "" ∉ ["GPU-a"] ∧ (8 : Nat) = XidCriticalError ∧
    iteration (getDevices ["GPU-a"] (some 1)) ⟨⟨some "", 8, 48⟩, none⟩ =
      ([⟨"GPU-a-001", Healthy⟩], true) := by
  decide

/-- C2 as amended: for the list built by `getDevices` from pairwise distinct
uuids with share degree `K ≥ 1` and an event of the critical-fault type with a
non-benign error code whose identifier is a non-empty string `P`: when `P` is
the uuid of one of the physical devices the pass sends exactly the `K` devices
`P-001 ... P-00K` in that order, all of which decode to `P`; when `P` is the uuid
of none of them the pass sends nothing. -/
theorem iteration_uuid_sends_its_shares (uuids : List String) (K : Int) (hK : 1 ≤ K)
    (hnd : uuids.Nodup) (w : WaitResult) (P : String)
    (htype : w.e.Etype = XidCriticalError)
    (hdata : w.e.Edata ≠ 31 ∧ w.e.Edata ≠ 43 ∧ w.e.Edata ≠ 45)
    (huuid : w.e.UUID = some P) (hP : P ≠ "") :
    (P ∈ uuids →
      iteration (getDevices uuids (some K)) w =
        ((List.range K.toNat).map (fun (i : Nat) =>
          ({ ID := getSharedDeviceID P ((i : Int) + 1), Health := Healthy } : Device)), true)
      ∧ (((iteration (getDevices uuids (some K)) w).1.length : Int) = K)
      ∧ ∀ d ∈ (iteration (getDevices uuids (some K)) w).1, getRealDeviceID d.ID = some P)
    ∧ (P ∉ uuids → iteration (getDevices uuids (some K)) w = ([], true)) := by
  have hit := iteration_uuid_eq_filter (getDevices uuids (some K)) w P
    (by rw [getDevices_eq]
        intro d hd
        obtain ⟨u, _, hu⟩ := real_of_mem_build uuids K d hd
        exact ⟨u, hu⟩) htype hdata huuid hP
  rw [getDevices_eq, filter_build uuids K P hnd] at hit
  constructor
  · intro hmem
    rw [if_pos hmem] at hit
    have hit2 : iteration (getDevices uuids (some K)) w = (sharesOf K P, true) := by
      rw [getDevices_eq]; exact hit
    refine ⟨hit2, ?_, ?_⟩
    · rw [hit2]
      simp only [sharesOf, List.length_map, List.length_range]
      exact Int.toNat_of_nonneg (by omega)
    · rw [hit2]
      intro d hd
      exact real_of_mem_sharesOf K P d hd
  · intro hmem
    rw [if_neg hmem] at hit
    rw [getDevices_eq]; exact hit

theorem iteration_uuid_sends_its_shares_witness :
    (1 : Int) ≤ 3 ∧ ["GPU-a", "GPU-b"].Nodup ∧ (8 : Nat) = XidCriticalError ∧
    "GPU-b" ∈ ["GPU-a", "GPU-b"] ∧
    iteration (getDevices ["GPU-a", "GPU-b"] (some 3)) ⟨⟨some "GPU-b", 8, 48⟩, none⟩ =
      ([⟨"GPU-b-001", Healthy⟩, ⟨"GPU-b-002", Healthy⟩, ⟨"GPU-b-003", Healthy⟩], true) :=
  ⟨by decide, by decide, rfl, by decide,
    ((iteration_uuid_sends_its_shares ["GPU-a", "GPU-b"] 3 (by decide) (by decide)
      ⟨⟨some "GPU-b", 8, 48⟩, none⟩ "GPU-b" rfl (by decide) rfl (by decide)).1
        (by decide)).1.trans (by decide)⟩

/-- C5: for pairwise distinct physical uuids and share degree `K ≥ 1` the list
built by `getDevices` has `N * K` records, for each physical uuid `u` exactly `K`
of them decode to `u`, and every record decodes to one of the physical uuids. -/
theorem getDevices_partition (uuids : List String) (K : Int) (hK : 1 ≤ K)
    (hnd : uuids.Nodup) :
    ((getDevices uuids (some K)).length : Int) = (uuids.length : Int) * K
    ∧ (∀ u ∈ uuids,
        (((getDevices uuids (some K)).countP
          (fun d => decide (getRealDeviceID d.ID = some u)) : Nat) : Int) = K)
    ∧ ∀ d ∈ getDevices uuids (some K), ∃ u ∈ uuids, getRealDeviceID d.ID = some u := by
  have hKn : ((K.toNat : Nat) : Int) = K := Int.toNat_of_nonneg (by omega)
  rw [getDevices_eq]
  refine ⟨?_, ?_, real_of_mem_build uuids K⟩
  · rw [length_BuildVirtualDevices, Nat.cast_mul, hKn]
  · intro u hu
    rw [List.countP_eq_length_filter, filter_build uuids K u hnd, if_pos hu]
    simp only [sharesOf, List.length_map, List.length_range]
    exact hKn

theorem getDevices_partition_witness :
    (1 : Int) ≤ 3 ∧ ["GPU-a", "GPU-b"].Nodup ∧
    ((getDevices ["GPU-a", "GPU-b"] (some 3)).length : Int) = 6 :=
  ⟨by decide, by decide,
    (getDevices_partition ["GPU-a", "GPU-b"] 3 (by decide) (by decide)).1.trans (by decide)⟩

/-! ## The registration loop (C8, C9, C10) -/

theorem registerLoop_slice (reg : Registrar) (d : Device) (rest : List Device)
    (calls : List (String × Option String)) (out : List Device)
    (hreal : getRealDeviceID d.ID = none) :
    registerLoop reg (d :: rest) calls out =
      { registered := calls, emitted := out, iterations := 0, status := .SliceOutOfRange } := by
  simp only [registerLoop, hreal]

theorem registerLoop_ok (reg : Registrar) (d : Device) (rest : List Device)
    (calls : List (String × Option String)) (out : List Device) (u : String)
    (hreal : getRealDeviceID d.ID = some u) (hreg : reg (calls.map Prod.fst) u = none) :
    registerLoop reg (d :: rest) calls out = registerLoop reg rest (calls ++ [(u, none)]) out := by
  simp only [registerLoop, hreal, hreg]

theorem registerLoop_unsupported (reg : Registrar) (d : Device) (rest : List Device)
    (calls : List (String × Option String)) (out : List Device) (u msg : String)
    (hreal : getRealDeviceID d.ID = some u) (hreg : reg (calls.map Prod.fst) u = some msg)
    (hs : HasSuffix msg "Not Supported" = true) :
    registerLoop reg (d :: rest) calls out =
      registerLoop reg rest (calls ++ [(u, some msg)]) (out ++ [d]) := by
  simp only [registerLoop, hreal, hreg, hs, if_true]

theorem registerLoop_fatal (reg : Registrar) (d : Device) (rest : List Device)
    (calls : List (String × Option String)) (out : List Device) (u msg : String)
    (hreal : getRealDeviceID d.ID = some u) (hreg : reg (calls.map Prod.fst) u = some msg)
    (hs : ¬ HasSuffix msg "Not Supported" = true) :
    registerLoop reg (d :: rest) calls out =
      { registered := calls ++ [(u, some msg)], emitted := out, iterations := 0,
        status := .Fatal msg } := by
  simp [registerLoop, hreal, hreg, hs]

theorem registerLoop_spec (reg : Registrar) (devs : List Device) :
    ∀ (calls : List (String × Option String)) (out : List Device),
      ∃ ext : List (String × Option String),
        (registerLoop reg devs calls out).registered = calls ++ ext ∧
        (registerLoop reg devs calls out).emitted =
          out ++ ((devs.zip ext).filter (fun p => notSupported p.2.2)).map Prod.fst ∧
        ((∃ msg, (registerLoop reg devs calls out).status = .Fatal msg) ↔
          ∃ c ∈ ext, fatalResult c.2 = true) ∧
        (registerLoop reg devs calls out).iterations = 0 := by
  induction devs with
  | nil =>
    intro calls out
    exact ⟨[], by simp [registerLoop], by simp [registerLoop], by simp [registerLoop], rfl⟩
  | cons d rest ih =>
    intro calls out
    cases hreal : getRealDeviceID d.ID with
    | none =>
      rw [registerLoop_slice reg d rest calls out hreal]
      exact ⟨[], by simp, by simp, by simp, rfl⟩
    | some u =>
      cases hreg : reg (calls.map Prod.fst) u with
      | none =>
        rw [registerLoop_ok reg d rest calls out u hreal hreg]
        obtain ⟨ext, h1, h2, h3, h4⟩ := ih (calls ++ [(u, none)]) out
        refine ⟨(u, none) :: ext, ?_, ?_, ?_, h4⟩
        · simpa using h1
        · simpa [notSupported] using h2
        · simpa [fatalResult] using h3
      | some msg =>
        by_cases hs : HasSuffix msg "Not Supported" = true
        · rw [registerLoop_unsupported reg d rest calls out u msg hreal hreg hs]
          obtain ⟨ext, h1, h2, h3, h4⟩ := ih (calls ++ [(u, some msg)]) (out ++ [d])
          refine ⟨(u, some msg) :: ext, ?_, ?_, ?_, h4⟩
          · simpa using h1
          · simpa [notSupported, hs] using h2
          · simpa [fatalResult, hs] using h3
        · rw [registerLoop_fatal reg d rest calls out u msg hreal hreg hs]
          refine ⟨[(u, some msg)], rfl, ?_, ?_, rfl⟩
          · simp [notSupported, hs]
          · simp [fatalResult, hs]

theorem registerLoop_one_unsupported (reg : Registrar) (P : String) (uuids : List String)
    (hP : ∀ calls, ∃ msg, reg calls P = some msg ∧ HasSuffix msg "Not Supported" = true)
    (hO : ∀ calls, ∀ u ∈ uuids, u ≠ P → reg calls u = none) (devs : List Device) :
    ∀ (calls : List (String × Option String)) (out : List Device),
      (∀ d ∈ devs, ∃ u ∈ uuids, getRealDeviceID d.ID = some u) →
      (registerLoop reg devs calls out).emitted =
          out ++ devs.filter (fun d => decide (getRealDeviceID d.ID = some P)) ∧
        (registerLoop reg devs calls out).status = .Running := by
  induction devs with
  | nil => intro calls out _; simp [registerLoop]
  | cons d rest ih =>
    intro calls out hdec
    obtain ⟨u, hmem, hu⟩ := hdec d (List.mem_cons_self _ _)
    have hrest : ∀ x ∈ rest, ∃ u ∈ uuids, getRealDeviceID x.ID = some u :=
      fun x hx => hdec x (List.mem_cons_of_mem _ hx)
    by_cases h : u = P
    · obtain ⟨msg, hmsg, hs⟩ := hP (calls.map Prod.fst)
      rw [registerLoop_unsupported reg d rest calls out u msg hu (h ▸ hmsg) hs]
      obtain ⟨h1, h2⟩ := ih (calls ++ [(u, some msg)]) (out ++ [d]) hrest
      refine ⟨?_, h2⟩
      rw [h1]
      simp [List.filter_cons, hu, h]
    · rw [registerLoop_ok reg d rest calls out u hu (hO _ u hmem h)]
      obtain ⟨h1, h2⟩ := ih (calls ++ [(u, none)]) out hrest
      refine ⟨?_, h2⟩
      rw [h1]
      simp [List.filter_cons, hu, h]

theorem registerLoop_no_fatal (reg : Registrar)
    (hreg : ∀ calls u msg, reg calls u = some msg → HasSuffix msg "Not Supported" = true)
    (devs : List Device) :
    ∀ (calls : List (String × Option String)) (out : List Device),
      (∀ d ∈ devs, ∃ u, getRealDeviceID d.ID = some u) →
      (registerLoop reg devs calls out).registered.map Prod.fst =
          calls.map Prod.fst ++ realIDs devs ∧
        (registerLoop reg devs calls out).status = .Running := by
  induction devs with
  | nil => intro calls out _; simp [registerLoop, realIDs]
  | cons d rest ih =>
    intro calls out hdec
    obtain ⟨u, hu⟩ := hdec d (List.mem_cons_self _ _)
    have hrest : ∀ x ∈ rest, ∃ u, getRealDeviceID x.ID = some u :=
      fun x hx => hdec x (List.mem_cons_of_mem _ hx)
    have hreal : realIDs (d :: rest) = u :: realIDs rest := by
      simp [realIDs, List.filterMap_cons, hu]
    cases hr : reg (calls.map Prod.fst) u with
    | none =>
      rw [registerLoop_ok reg d rest calls out u hu hr]
      obtain ⟨h1, h2⟩ := ih (calls ++ [(u, none)]) out hrest
      refine ⟨?_, h2⟩
      rw [h1, hreal]
      simp
    | some msg =>
      rw [registerLoop_unsupported reg d rest calls out u msg hu hr (hreg _ u msg hr)]
      obtain ⟨h1, h2⟩ := ih (calls ++ [(u, some msg)]) (out ++ [d]) hrest
      refine ⟨?_, h2⟩
      rw [h1, hreal]
      simp

theorem realIDs_append (a b : List Device) : realIDs (a ++ b) = realIDs a ++ realIDs b := by
  simp [realIDs, List.filterMap_append]

theorem realIDs_const (u : String) (l : List Device)
    (h : ∀ d ∈ l, getRealDeviceID d.ID = some u) : realIDs l = List.replicate l.length u := by
  induction l with
  | nil => rfl
  | cons d rest ih =>
    have hd := h d (List.mem_cons_self _ _)
    have hr := ih (fun x hx => h x (List.mem_cons_of_mem _ hx))
    unfold realIDs at hr ⊢
    rw [List.filterMap_cons, hd]
    simp only [List.length_cons, List.replicate_succ]
    rw [hr]

theorem realIDs_build (uuids : List String) (K : Int) :
    realIDs (BuildVirtualDevices uuids K) = uuids.flatMap (fun u => List.replicate K.toNat u) := by
  unfold BuildVirtualDevices
  induction uuids with
  | nil => rfl
  | cons u rest ih =>
    rw [List.flatMap_cons, List.flatMap_cons, realIDs_append, ih,
      realIDs_const u (sharesOf K u) (real_of_mem_sharesOf K u)]
    simp [sharesOf]

theorem length_flatMap_replicate (uuids : List String) (n : Nat) :
    (uuids.flatMap (fun v => List.replicate n v)).length = uuids.length * n := by
  induction uuids with
  | nil => simp
  | cons u rest ih =>
    rw [List.flatMap_cons, List.length_append, ih]
    simp [Nat.add_mul, Nat.add_comm]

theorem count_flatMap_replicate (uuids : List String) (n : Nat) (u : String)
    (hnd : uuids.Nodup) (hu : u ∈ uuids) :
    (uuids.flatMap (fun v => List.replicate n v)).count u = n := by
  induction uuids with
  | nil => simp at hu
  | cons v rest ih =>
    have hnd2 := List.nodup_cons.mp hnd
    rw [List.flatMap_cons, List.count_append, List.count_replicate]
    by_cases h : v = u
    · subst h
      have : List.count v (rest.flatMap (fun v => List.replicate n v)) = 0 := by
        rw [List.count_eq_zero]
        intro hm
        rcases List.mem_flatMap.mp hm with ⟨w, hw, hvw⟩
        rw [List.eq_of_mem_replicate hvw] at hnd2
        exact hnd2.1 hw
      simp [this]
    · have hu2 : u ∈ rest := by
        rcases List.mem_cons.mp hu with e | e
        · exact absurd e.symm h
        · exact e
      simp [h, ih hnd2.2 hu2]

theorem decodable_getDevices (uuids : List String) (K : Int) :
    ∀ d ∈ getDevices uuids (some K), ∃ u, getRealDeviceID d.ID = some u := by
  intro d hd
  rw [getDevices_eq] at hd
  obtain ⟨u, _, hu⟩ := real_of_mem_build uuids K d hd
  exact ⟨u, hu⟩

/-- C8: for the list built by `getDevices` from pairwise distinct uuids with
share degree `K ≥ 1`, when every registration for the physical device `P`
returns an error ending in `Not Supported` and every registration for another
uuid succeeds, the initialization sends exactly the `K` devices
`P-001 ... P-00K`, each once and in that order, all of which decode to `P`, and
goes on to the event loop. -/
theorem initPhase_unsupported_sends_its_shares (uuids : List String) (K : Int) (hK : 1 ≤ K)
    (hnd : uuids.Nodup) (reg : Registrar) (P : String) (hmem : P ∈ uuids)
    (hP : ∀ calls, ∃ msg, reg calls P = some msg ∧ HasSuffix msg "Not Supported" = true)
    (hO : ∀ calls, ∀ u ∈ uuids, u ≠ P → reg calls u = none) :
    (initPhase reg (getDevices uuids (some K))).emitted =
        (List.range K.toNat).map (fun (i : Nat) =>
          ({ ID := getSharedDeviceID P ((i : Int) + 1), Health := Healthy } : Device))
      ∧ (((initPhase reg (getDevices uuids (some K))).emitted.length : Int) = K)
      ∧ (∀ d ∈ (initPhase reg (getDevices uuids (some K))).emitted,
          getRealDeviceID d.ID = some P)
      ∧ (initPhase reg (getDevices uuids (some K))).status = .Running := by
  obtain ⟨h1, h2⟩ := registerLoop_one_unsupported reg P uuids hP hO
    (getDevices uuids (some K)) [] []
    (by rw [getDevices_eq]; exact real_of_mem_build uuids K)
  have hem : (initPhase reg (getDevices uuids (some K))).emitted = sharesOf K P := by
    unfold initPhase
    rw [h1, getDevices_eq, filter_build uuids K P hnd, if_pos hmem, List.nil_append]
  refine ⟨hem, ?_, ?_, h2⟩
  · rw [hem]
    simp only [sharesOf, List.length_map, List.length_range]
    exact Int.toNat_of_nonneg (by omega)
  · rw [hem]
    exact real_of_mem_sharesOf K P

theorem initPhase_unsupported_sends_its_shares_witness :
    (initPhase (fun _ u => if u = "GPU-b" then some "Not Supported" else none)
      (getDevices ["GPU-a", "GPU-b"] (some 3))).emitted =
      [⟨"GPU-b-001", Healthy⟩, ⟨"GPU-b-002", Healthy⟩, ⟨"GPU-b-003", Healthy⟩] :=
  (initPhase_unsupported_sends_its_shares ["GPU-a", "GPU-b"] 3 (by decide) (by decide)
    (fun _ u => if u = "GPU-b" then some "Not Supported" else none) "GPU-b" (by decide)
    (fun _ => ⟨"Not Supported", by simp, by decide⟩)
    (fun _ u _ h => by simp [h])).1.trans (by decide)

/-- C9, the claim as stated fails: for the two virtual devices of the one
physical device `GPU-a` the registration is called twice with `GPU-a`, when the
calls succeed and also when each reports `Not Supported`. -/
theorem initPhase_registers_twice :
    (initPhase (fun _ _ => none) (getDevices ["GPU-a"] (some 2))).registered =
        [("GPU-a", none), ("GPU-a", none)]
    ∧ ((initPhase (fun _ _ => none) (getDevices ["GPU-a"] (some 2))).registered.map
        Prod.fst).count "GPU-a" = 2
    ∧ (initPhase (fun _ _ => some "Not Supported") (getDevices ["GPU-a"] (some 2))).registered =
        [("GPU-a", some "Not Supported"), ("GPU-a", some "Not Supported")] := by
  decide

/-- C9 as amended: when every registration succeeds or reports not supported,
the initialization registers once per virtual device, in list order and without
deduplication: for every device list whose ids decode, the uuids passed are the
decoded ids of the list, one call per device; for the list built by `getDevices`
with share degree `K ≥ 1` that is every physical uuid `K` times in a row, `N * K`
calls, and a uuid of pairwise distinct physical uuids is passed exactly `K`
times, also after a not supported result for it. -/
theorem initPhase_registers_every_device (reg : Registrar)
    (hreg : ∀ calls u msg, reg calls u = some msg → HasSuffix msg "Not Supported" = true)
    (uuids : List String) (K : Int) (hK : 1 ≤ K) :
    (∀ devs : List Device, (∀ d ∈ devs, ∃ u, getRealDeviceID d.ID = some u) →
        (initPhase reg devs).registered.map Prod.fst = realIDs devs ∧
        (initPhase reg devs).registered.length = devs.length)
    ∧ (initPhase reg (getDevices uuids (some K))).registered.map Prod.fst =
        uuids.flatMap (fun u => List.replicate K.toNat u)
    ∧ (((initPhase reg (getDevices uuids (some K))).registered.length : Int) =
        (uuids.length : Int) * K)
    ∧ (uuids.Nodup → ∀ u ∈ uuids,
        ((((initPhase reg (getDevices uuids (some K))).registered.map Prod.fst).count u : Nat)
          : Int) = K) := by
  have hKn : ((K.toNat : Nat) : Int) = K := Int.toNat_of_nonneg (by omega)
  have hgen : ∀ devs : List Device, (∀ d ∈ devs, ∃ u, getRealDeviceID d.ID = some u) →
      (initPhase reg devs).registered.map Prod.fst = realIDs devs := by
    intro devs hdec
    have := (registerLoop_no_fatal reg hreg devs [] [] hdec).1
    simpa [initPhase] using this
  have hlen : ∀ devs : List Device, (∀ d ∈ devs, ∃ u, getRealDeviceID d.ID = some u) →
      realIDs devs = devs.map (fun d => (getRealDeviceID d.ID).getD "") := by
    intro devs
    induction devs with
    | nil => intro _; rfl
    | cons d rest ih =>
      intro hdec
      obtain ⟨u, hu⟩ := hdec d (List.mem_cons_self _ _)
      have hr := ih (fun x hx => hdec x (List.mem_cons_of_mem _ hx))
      unfold realIDs at hr ⊢
      rw [List.filterMap_cons, hu, List.map_cons, hr, hu]
      rfl
  have hcalls : (initPhase reg (getDevices uuids (some K))).registered.map Prod.fst =
      uuids.flatMap (fun u => List.replicate K.toNat u) := by
    rw [hgen _ (decodable_getDevices uuids K), getDevices_eq, realIDs_build]
  refine ⟨?_, hcalls, ?_, ?_⟩
  · intro devs hdec
    refine ⟨hgen devs hdec, ?_⟩
    have h := congrArg List.length (hgen devs hdec)
    rw [hlen devs hdec] at h
    simpa using h
  · have h := congrArg List.length hcalls
    rw [List.length_map] at h
    rw [h, length_flatMap_replicate, Nat.cast_mul, hKn]
  · intro hnd u hu
    rw [hcalls, count_flatMap_replicate uuids K.toNat u hnd hu]
    exact hKn

theorem initPhase_registers_every_device_witness :
    (initPhase (fun _ _ => none) (getDevices ["GPU-a", "GPU-b"] (some 2))).registered.map
      Prod.fst = ["GPU-a", "GPU-a", "GPU-b", "GPU-b"] :=
  (initPhase_registers_every_device (fun _ _ => none) (fun _ _ _ h => by simp at h)
    ["GPU-a", "GPU-b"] 2 (by decide)).2.1.trans (by decide)

/-- C10, the claim as stated fails: the registration for `GPU-a` reports
`Not Supported`, so `GPU-a-001` is sent, and then the registration for `GPU-b`
fails with `Unknown Error`, which is fatal: a device was sent before the fatal
error. -/
theorem fatal_after_unsupported_has_sent :
    (watchXIDs (fun _ u => if u = "GPU-a" then some "Not Supported" else some "Unknown Error")
        (getDevices ["GPU-a", "GPU-b"] (some 1)) []).status = .Fatal "Unknown Error"
    ∧ (watchXIDs (fun _ u => if u = "GPU-a" then some "Not Supported" else some "Unknown Error")
        (getDevices ["GPU-a", "GPU-b"] (some 1)) []).emitted = [⟨"GPU-a-001", Healthy⟩] := by
  decide

/-- C10 as amended: the initialization of `watchXIDs` ends in the fatal error of
line 82 if and only if some registration call that was made returned an error
whose message does not end in `Not Supported`; in that case the run is the
initialization alone, no pass of the event loop is begun, whatever the
environment would supply; and the devices sent during initialization are exactly
the devices whose own registration call reported not supported, so nothing is
sent for or after the failing call. -/
theorem watchXIDs_fatal_iff (reg : Registrar) (devs : List Device) (ticks : List Tick) :
    ((∃ msg, (initPhase reg devs).status = .Fatal msg) ↔
        ∃ c ∈ (initPhase reg devs).registered,
          ∃ msg, c.2 = some msg ∧ HasSuffix msg "Not Supported" = false)
    ∧ ((∃ msg, (initPhase reg devs).status = .Fatal msg) →
        watchXIDs reg devs ticks = initPhase reg devs ∧
        (watchXIDs reg devs ticks).iterations = 0)
    ∧ (initPhase reg devs).emitted =
        ((devs.zip (initPhase reg devs).registered).filter
          (fun p => notSupported p.2.2)).map Prod.fst := by
  obtain ⟨ext, h1, h2, h3, h4⟩ := registerLoop_spec reg devs [] []
  have hreg : (initPhase reg devs).registered = ext := by simpa [initPhase] using h1
  refine ⟨?_, ?_, ?_⟩
  · rw [hreg]
    unfold initPhase
    rw [h3]
    constructor
    · rintro ⟨c, hc, hf⟩
      refine ⟨c, hc, ?_⟩
      cases hc2 : c.2 with
      | none => rw [hc2] at hf; simp [fatalResult] at hf
      | some msg =>
        rw [hc2] at hf
        exact ⟨msg, rfl, by simpa [fatalResult] using hf⟩
    · rintro ⟨c, hc, msg, hmsg, hs⟩
      exact ⟨c, hc, by rw [hmsg]; simp [fatalResult, hs]⟩
  · rintro ⟨msg, hmsg⟩
    have hw : watchXIDs reg devs ticks = initPhase reg devs := by
      simp only [watchXIDs, hmsg]
    refine ⟨hw, ?_⟩
    rw [hw]
    exact h4
  · rw [hreg]
    unfold initPhase
    rw [h2, List.nil_append]

/-! ## The share degree read from the configuration (C11, C12) -/

theorem getDevices_none (uuids : List String) :
    getDevices uuids none = BuildVirtualDevices uuids 5 := by
  unfold getDevices
  simp only [deviceLoop_eq, List.nil_append]

theorem sharesOf_five (uuid : String) :
    sharesOf 5 uuid = ([1, 2, 3, 4, 5] : List Int).map (fun j =>
      ({ ID := getSharedDeviceID uuid j, Health := Healthy } : Device)) := by
  rfl

/-- C11: when the configuration value is not accepted by `strconv.Atoi`, as the
empty value of an unset variable is, `getDevices` uses the share degree 5: the
list is, for every physical uuid in order, the five records with share indices
1 to 5, whose ids end in `-001`, ..., `-005`; that is `N * 5` records. -/
theorem getDevices_default_share_degree (uuids : List String) (env : String)
    (henv : Atoi env = none) :
    getDevices uuids (Atoi env) =
        uuids.flatMap (fun uuid => ([1, 2, 3, 4, 5] : List Int).map (fun j =>
          ({ ID := getSharedDeviceID uuid j, Health := Healthy } : Device)))
      ∧ (getDevices uuids (Atoi env)).length = uuids.length * 5
      ∧ (∀ uuid : String, ([1, 2, 3, 4, 5] : List Int).map (getSharedDeviceID uuid) =
          ["-001", "-002", "-003", "-004", "-005"].map
            (fun suffix => String.mk (uuid.data ++ suffix.data)))
      ∧ Atoi "" = none := by
  rw [henv, getDevices_none]
  refine ⟨?_, ?_, ?_, by decide⟩
  · unfold BuildVirtualDevices
    rw [show sharesOf 5 = _ from funext sharesOf_five]
  · rw [length_BuildVirtualDevices]
    rfl
  · intro uuid
    rfl

theorem getDevices_default_share_degree_witness :
    Atoi "five" = none ∧
    getDevices ["GPU-a"] (Atoi "five") =
      [⟨"GPU-a-001", Healthy⟩, ⟨"GPU-a-002", Healthy⟩, ⟨"GPU-a-003", Healthy⟩,
       ⟨"GPU-a-004", Healthy⟩, ⟨"GPU-a-005", Healthy⟩] :=
  ⟨by decide, (getDevices_default_share_degree ["GPU-a"] "five" (by decide)).1.trans (by decide)⟩

/-- C12, the claim as stated fails: the values `0` and `-3` are accepted by
`strconv.Atoi`, no error is returned, the share degree stays 0 or -3 and the
list built for one physical device is empty, not five records. -/
theorem getDevices_nonpositive_not_coerced :
    Atoi "0" = some 0 ∧ getDevices ["GPU-a"] (Atoi "0") = []
    ∧ Atoi "-3" = some (-3) ∧ getDevices ["GPU-a"] (Atoi "-3") = []
    ∧ (getDevices ["GPU-a"] (Atoi "0")).length ≠ 1 * 5 := by
  decide

/-- C12 as amended: a share degree that parses as a non-positive integer is used
as it is: the condition `j <= gpuShareNum` fails at `j = 1` for every physical
device and the list is empty, for any number of physical devices. -/
theorem getDevices_nonpositive_empty (uuids : List String) (K : Int) (hK : K ≤ 0) :
    getDevices uuids (some K) = [] ∧ (getDevices uuids (some K)).length = 0 := by
  have hnil : getDevices uuids (some K) = [] := by
    rw [getDevices_eq]
    unfold BuildVirtualDevices
    have h0 : K.toNat = 0 := by omega
    have hs : ∀ u, sharesOf K u = [] := by
      intro u
      simp [sharesOf, h0]
    induction uuids with
    | nil => rfl
    | cons u rest ih => rw [List.flatMap_cons, hs u, ih, List.nil_append]
  exact ⟨hnil, by rw [hnil]; rfl⟩

theorem getDevices_nonpositive_empty_witness :
    ((-3 : Int) ≤ 0) ∧ getDevices ["GPU-a", "GPU-b"] (some (-3)) = [] :=
  ⟨by decide, (getDevices_nonpositive_empty ["GPU-a", "GPU-b"] (-3) (by decide)).1⟩

/-! ## An event with an empty identifier (C20) -/

/-- C20: an event of the critical-fault type with a non-benign error code whose
identifier is present but empty is handled as an event with no identifier: for
every device list the pass sends the list itself, in list order. -/
theorem iteration_empty_uuid_like_no_uuid (devs : List Device) (w : WaitResult)
    (htype : w.e.Etype = XidCriticalError)
    (hdata : w.e.Edata ≠ 31 ∧ w.e.Edata ≠ 43 ∧ w.e.Edata ≠ 45)
    (huuid : w.e.UUID = some "") :
    iteration devs w = (devs, true) ∧
    iteration devs w = iteration devs { w with e := { w.e with UUID := none } } := by
  have hit : iteration devs w = (devs, true) := by
    unfold iteration
    rw [if_neg (by simp [htype]), if_neg (by simp [hdata.1, hdata.2.1, hdata.2.2]), huuid]
    simp [sendAll_eq]
  refine ⟨hit, ?_⟩
  rw [hit]
  unfold iteration
  rw [if_neg (by simp [htype]), if_neg (by simp [hdata.1, hdata.2.1, hdata.2.2])]
  simp [sendAll_eq]

theorem iteration_empty_uuid_like_no_uuid_witness :
    iteration [⟨"GPU-a-001", Healthy⟩, ⟨"GPU-b-001", Healthy⟩] ⟨⟨some "", 8, 48⟩, none⟩ =
      ([⟨"GPU-a-001", Healthy⟩, ⟨"GPU-b-001", Healthy⟩], true) :=
  (iteration_empty_uuid_like_no_uuid [⟨"GPU-a-001", Healthy⟩, ⟨"GPU-b-001", Healthy⟩]
    ⟨⟨some "", 8, 48⟩, none⟩ rfl (by decide) rfl).1

/-! ## Cancellation (C13) -/

theorem registerLoop_status (reg : Registrar) (devs : List Device) :
    ∀ (calls : List (String × Option String)) (out : List Device),
      (registerLoop reg devs calls out).status ≠ .Stopped := by
  induction devs with
  | nil => intro calls out; simp [registerLoop]
  | cons d rest ih =>
    intro calls out
    cases hreal : getRealDeviceID d.ID with
    | none => rw [registerLoop_slice reg d rest calls out hreal]; simp
    | some u =>
      cases hreg : reg (calls.map Prod.fst) u with
      | none => rw [registerLoop_ok reg d rest calls out u hreal hreg]; exact ih _ _
      | some msg =>
        by_cases hs : HasSuffix msg "Not Supported" = true
        · rw [registerLoop_unsupported reg d rest calls out u msg hreal hreg hs]; exact ih _ _
        · rw [registerLoop_fatal reg d rest calls out u msg hreal hreg hs]; simp

theorem watchXIDs_of_running (reg : Registrar) (devs : List Device) (ticks : List Tick)
    (h : (initPhase reg devs).status = .Running) :
    watchXIDs reg devs ticks = eventLoop devs ticks (initPhase reg devs) := by
  simp only [watchXIDs, h]

theorem watchXIDs_of_not_running (reg : Registrar) (devs : List Device) (ticks : List Tick)
    (h : (initPhase reg devs).status ≠ .Running) :
    watchXIDs reg devs ticks = initPhase reg devs := by
  cases hs : (initPhase reg devs).status with
  | Running => exact absurd hs h
  | Stopped => simp only [watchXIDs, hs]
  | Fatal msg => simp only [watchXIDs, hs]
  | SliceOutOfRange => simp only [watchXIDs, hs]

theorem initPhase_running_of_run (reg : Registrar) (devs : List Device) (ticks : List Tick)
    (h : (watchXIDs reg devs ticks).status = .Running) :
    (initPhase reg devs).status = .Running := by
  by_contra hn
  rw [watchXIDs_of_not_running reg devs ticks hn] at h
  exact hn h

theorem eventLoop_wait_ok (devs : List Device) (w : WaitResult) (rest : List Tick) (t : Trace)
    (out : List Device) (h : iteration devs w = (out, true)) :
    eventLoop devs (Tick.wait w :: rest) t =
      eventLoop devs rest { t with emitted := t.emitted ++ out, iterations := t.iterations + 1 } := by
  simp only [eventLoop, h]

theorem eventLoop_wait_slice (devs : List Device) (w : WaitResult) (rest : List Tick) (t : Trace)
    (out : List Device) (h : iteration devs w = (out, false)) :
    eventLoop devs (Tick.wait w :: rest) t =
      { t with emitted := t.emitted ++ out, iterations := t.iterations + 1,
               status := .SliceOutOfRange } := by
  simp only [eventLoop, h]

theorem iteration_cases (devs : List Device) (w : WaitResult) :
    (∃ out, iteration devs w = (out, true)) ∨ (∃ out, iteration devs w = (out, false)) := by
  cases h : iteration devs w with
  | mk out ok =>
    cases ok with
    | true => exact Or.inl ⟨out, rfl⟩
    | false => exact Or.inr ⟨out, rfl⟩

theorem eventLoop_stopped (devs : List Device) :
    ∀ (ticks : List Tick) (t : Trace), t.status = .Running →
      (eventLoop devs ticks t).status = .Stopped →
      ∃ pre rest, ticks = pre ++ Tick.cancelled :: rest ∧
        (eventLoop devs pre t).status = .Running := by
  intro ticks
  induction ticks with
  | nil =>
    intro t ht hs
    simp only [eventLoop] at hs
    rw [ht] at hs
    exact absurd hs (by simp)
  | cons tick rest ih =>
    intro t ht hs
    cases tick with
    | cancelled => exact ⟨[], rest, rfl, ht⟩
    | wait w =>
      rcases iteration_cases devs w with ⟨out, hit⟩ | ⟨out, hit⟩
      · rw [eventLoop_wait_ok devs w rest t out hit] at hs
        obtain ⟨pre, rest2, h1, h2⟩ := ih
          { t with emitted := t.emitted ++ out, iterations := t.iterations + 1 } ht hs
        refine ⟨Tick.wait w :: pre, rest2, by rw [h1]; rfl, ?_⟩
        rw [eventLoop_wait_ok devs w pre t out hit]
        exact h2
      · rw [eventLoop_wait_slice devs w rest t out hit] at hs
        exact absurd hs (by simp)

theorem eventLoop_append (devs : List Device) :
    ∀ (a b : List Tick) (t : Trace), (eventLoop devs a t).status = .Running →
      t.status = .Running →
      eventLoop devs (a ++ b) t = eventLoop devs b (eventLoop devs a t) := by
  intro a
  induction a with
  | nil => intro b t _ _; rfl
  | cons tick rest ih =>
    intro b t hrun ht
    cases tick with
    | cancelled =>
      simp only [eventLoop] at hrun
      exact absurd hrun (by simp)
    | wait w =>
      rcases iteration_cases devs w with ⟨out, hit⟩ | ⟨out, hit⟩
      · rw [eventLoop_wait_ok devs w rest t out hit] at hrun
        rw [List.cons_append, eventLoop_wait_ok devs w (rest ++ b) t out hit,
          eventLoop_wait_ok devs w rest t out hit]
        exact ih b _ hrun ht
      · rw [eventLoop_wait_slice devs w rest t out hit] at hrun
        exact absurd hrun (by simp)

/-- C13: a run of `watchXIDs` is in the state `Stopped` only when the
cancellation was seen at the top of a pass that the monitor reached running;
and when it is seen there, the monitor stops in that pass: the event set is
released, nothing is sent and no registration is made beyond what was before,
and whatever the environment holds after the cancellation is not looked at. -/
theorem watchXIDs_stops_on_cancel (reg : Registrar) (devs : List Device) :
    (∀ ticks : List Tick, (watchXIDs reg devs ticks).status = .Stopped →
      ∃ pre rest, ticks = pre ++ Tick.cancelled :: rest ∧
        (watchXIDs reg devs pre).status = .Running)
    ∧ (∀ pre rest : List Tick, (watchXIDs reg devs pre).status = .Running →
        (watchXIDs reg devs (pre ++ Tick.cancelled :: rest)).status = .Stopped
        ∧ (watchXIDs reg devs (pre ++ Tick.cancelled :: rest)).released = true
        ∧ (watchXIDs reg devs (pre ++ Tick.cancelled :: rest)).emitted =
            (watchXIDs reg devs pre).emitted
        ∧ (watchXIDs reg devs (pre ++ Tick.cancelled :: rest)).registered =
            (watchXIDs reg devs pre).registered
        ∧ (watchXIDs reg devs (pre ++ Tick.cancelled :: rest)).iterations =
            (watchXIDs reg devs pre).iterations + 1
        ∧ watchXIDs reg devs (pre ++ Tick.cancelled :: rest) =
            watchXIDs reg devs (pre ++ [Tick.cancelled])) := by
  constructor
  · intro ticks hs
    by_cases hinit : (initPhase reg devs).status = .Running
    · rw [watchXIDs_of_running reg devs ticks hinit] at hs
      obtain ⟨pre, rest, h1, h2⟩ := eventLoop_stopped devs ticks _ hinit hs
      exact ⟨pre, rest, h1, by rw [watchXIDs_of_running reg devs pre hinit]; exact h2⟩
    · rw [watchXIDs_of_not_running reg devs ticks hinit] at hs
      exact absurd hs (registerLoop_status reg devs [] [])
  · intro pre rest hrun
    have hinit := initPhase_running_of_run reg devs pre hrun
    have key : ∀ r : List Tick, watchXIDs reg devs (pre ++ Tick.cancelled :: r) =
        { watchXIDs reg devs pre with
          iterations := (watchXIDs reg devs pre).iterations + 1, status := .Stopped } := by
      intro r
      rw [watchXIDs_of_running reg devs _ hinit, watchXIDs_of_running reg devs pre hinit]
      rw [watchXIDs_of_running reg devs pre hinit] at hrun
      rw [eventLoop_append devs pre _ _ hrun hinit]
      rfl
    refine ⟨?_, ?_, ?_, ?_, ?_, ?_⟩
    · rw [key]
    · rw [key]; rfl
    · rw [key]
    · rw [key]
    · rw [key]
    · rw [key, key]

/-! ## The event loop keeps no state (C14) -/

theorem registerLoop_running_decodable (reg : Registrar) (devs : List Device) :
    ∀ (calls : List (String × Option String)) (out : List Device),
      (registerLoop reg devs calls out).status = .Running →
      ∀ d ∈ devs, ∃ u, getRealDeviceID d.ID = some u := by
  induction devs with
  | nil => intro _ _ _ d hd; simp at hd
  | cons d rest ih =>
    intro calls out hrun x hx
    cases hreal : getRealDeviceID d.ID with
    | none =>
      rw [registerLoop_slice reg d rest calls out hreal] at hrun
      exact absurd hrun (by simp)
    | some u =>
      have hrest : ∃ calls2 out2, (registerLoop reg rest calls2 out2).status = .Running := by
        cases hreg : reg (calls.map Prod.fst) u with
        | none =>
          rw [registerLoop_ok reg d rest calls out u hreal hreg] at hrun
          exact ⟨_, _, hrun⟩
        | some msg =>
          by_cases hs : HasSuffix msg "Not Supported" = true
          · rw [registerLoop_unsupported reg d rest calls out u msg hreal hreg hs] at hrun
            exact ⟨_, _, hrun⟩
          · rw [registerLoop_fatal reg d rest calls out u msg hreal hreg hs] at hrun
            exact absurd hrun (by simp)
      obtain ⟨calls2, out2, h2⟩ := hrest
      rcases List.mem_cons.mp hx with rfl | hx
      · exact ⟨u, hreal⟩
      · exact ih calls2 out2 h2 x hx

theorem iteration_ok_of_decodable (devs : List Device) (w : WaitResult)
    (hdec : ∀ d ∈ devs, ∃ u, getRealDeviceID d.ID = some u) :
    iteration devs w = ((iteration devs w).1, true) := by
  unfold iteration
  split
  · rfl
  · split
    · rfl
    · split
      · rfl
      · split
        · rfl
        · rw [sendMatching_eq _ devs [] hdec]

theorem eventLoop_waits (devs : List Device)
    (hdec : ∀ d ∈ devs, ∃ u, getRealDeviceID d.ID = some u) :
    ∀ (es : List WaitResult) (t : Trace),
      eventLoop devs (es.map Tick.wait) t =
        { t with emitted := t.emitted ++ es.flatMap (fun w => (iteration devs w).1),
                 iterations := t.iterations + es.length } := by
  intro es
  induction es with
  | nil => intro t; simp [eventLoop]
  | cons w rest ih =>
    intro t
    rw [List.map_cons, eventLoop_wait_ok devs w _ t _ (iteration_ok_of_decodable devs w hdec), ih]
    simp [List.flatMap_cons, Nat.add_assoc, Nat.add_comm 1]

theorem loopEmitted_of_running (reg : Registrar) (devs : List Device) (es : List WaitResult)
    (h : (initPhase reg devs).status = .Running) :
    loopEmitted reg devs es = es.flatMap (fun w => (iteration devs w).1) := by
  unfold loopEmitted
  rw [watchXIDs_of_running reg devs _ h,
    eventLoop_waits devs (registerLoop_running_decodable reg devs [] [] h)]
  simp

theorem loopEmitted_of_not_running (reg : Registrar) (devs : List Device) (es : List WaitResult)
    (h : (initPhase reg devs).status ≠ .Running) :
    loopEmitted reg devs es = [] := by
  unfold loopEmitted
  rw [watchXIDs_of_not_running reg devs _ h]
  simp

/-- C14: the event loop keeps no state and keeps the order: for every
registration oracle, device list and wait results `es1`, `es2` without
cancellation, what the loop sends for `es1` followed by `es2` is what it sends
for `es1` followed by what it sends for `es2`; and once the loop is entered, what
it sends for `es` is the concatenation, in order, of what one pass sends for each
wait result, which depends on that wait result and the device list only. -/
theorem loopEmitted_append (reg : Registrar) (devs : List Device) (es1 es2 : List WaitResult) :
    loopEmitted reg devs (es1 ++ es2) = loopEmitted reg devs es1 ++ loopEmitted reg devs es2
    ∧ ((initPhase reg devs).status = .Running →
        ∀ es : List WaitResult,
          loopEmitted reg devs es = es.flatMap (fun w => (iteration devs w).1)
          ∧ (watchXIDs reg devs (es.map Tick.wait)).emitted =
              (initPhase reg devs).emitted ++ loopEmitted reg devs es
          ∧ (watchXIDs reg devs (es.map Tick.wait)).status = .Running) := by
  constructor
  · by_cases h : (initPhase reg devs).status = .Running
    · simp only [loopEmitted_of_running reg devs _ h, List.flatMap_append]
    · simp only [loopEmitted_of_not_running reg devs _ h, List.append_nil]
  · intro h es
    refine ⟨loopEmitted_of_running reg devs es h, ?_, ?_⟩
    · rw [loopEmitted_of_running reg devs es h, watchXIDs_of_running reg devs _ h,
        eventLoop_waits devs (registerLoop_running_decodable reg devs [] [] h)]
    · rw [watchXIDs_of_running reg devs _ h,
        eventLoop_waits devs (registerLoop_running_decodable reg devs [] [] h)]
      exact h

/-! ## Where the decoder is defined (C15, C16, C17) -/

theorem last_occurrence (c : Char) (l : List Char) (h : c ∈ l) :
    ∃ a b, l = a ++ c :: b ∧ ∀ x ∈ b, x ≠ c := by
  induction l with
  | nil => simp at h
  | cons x xs ih =>
    by_cases hxs : c ∈ xs
    · obtain ⟨a, b, hab, hb⟩ := ih hxs
      exact ⟨x :: a, b, by rw [hab]; rfl, hb⟩
    · rcases List.mem_cons.mp h with rfl | h2
      · exact ⟨[], xs, rfl, fun y hy e => hxs (e ▸ hy)⟩
      · exact absurd h2 hxs

theorem lastIndexFrom_absent (l : List Char) (c : Char) (h : c ∉ l) :
    ∀ n, lastIndexFrom l c n = -1 := by
  intro n
  induction n with
  | zero => rfl
  | succ n ih =>
    have hne : l.get? n ≠ some c := fun e => h (List.get?_mem e)
    show (if l.get? n = some c then (n : Int) else lastIndexFrom l c n) = -1
    rw [if_neg hne, ih]

theorem getRealDeviceID_absent (id : String) (h : '-' ∉ id.data) :
    getRealDeviceID id = none := by
  unfold getRealDeviceID LastIndex
  rw [lastIndexFrom_absent id.data '-' h]
  rfl

theorem getRealDeviceID_present (id : String) (h : '-' ∈ id.data) :
    ∃ r s : String, getRealDeviceID id = some r ∧ id.data = r.data ++ '-' :: s.data ∧
      '-' ∉ s.data := by
  obtain ⟨a, b, hab, hb⟩ := last_occurrence '-' id.data h
  refine ⟨String.mk a, String.mk b, getRealDeviceID_of_data id (String.mk a) b hab hb, hab, ?_⟩
  intro hmem
  exact hb _ hmem rfl

/-- C15: for every id that contains `-`, `getRealDeviceID` returns the part of
the id before its last `-`: the id is the returned string, then `-`, then a rest
without `-`. -/
theorem getRealDeviceID_cuts_at_last_dash (id : String) (h : '-' ∈ id.data) :
    ∃ r s : String, getRealDeviceID id = some r ∧ id = r ++ "-" ++ s ∧ '-' ∉ s.data := by
  obtain ⟨r, s, h1, h2, h3⟩ := getRealDeviceID_present id h
  refine ⟨r, s, h1, ?_, h3⟩
  apply String.ext
  rw [h2]
  simp [String.data_append]

theorem getRealDeviceID_cuts_at_last_dash_witness :
    ∃ r s : String, getRealDeviceID "GPU-fef8-4820-007" = some r ∧
      "GPU-fef8-4820-007" = r ++ "-" ++ s ∧ '-' ∉ s.data :=
  getRealDeviceID_cuts_at_last_dash "GPU-fef8-4820-007" (by decide)

theorem fmtDigits_length_pos (u : Nat) (buf : List Char) :
    0 < (fmtDigits (u + 1) u buf).length := by
  have : ∀ fuel u buf, 0 < (fmtDigits (fuel + 1) u buf).length := by
    intro fuel
    induction fuel with
    | zero =>
      intro u buf
      unfold fmtDigits
      split
      · simp [fmtDigits]
      · simp
    | succ fuel ih =>
      intro u buf
      unfold fmtDigits
      split
      · exact ih _ _
      · simp
  exact this u u buf

theorem fmt03d_length (k : Int) : 3 ≤ (fmt03d k).length := by
  unfold fmt03d
  have hpos := fmtDigits_length_pos k.natAbs []
  by_cases h : k < 0
  · simp only [h, if_true, List.length_cons, List.length_append, List.length_replicate]
    omega
  · simp only [h, if_false, List.length_append, List.length_replicate]
    omega

/-- C16, the claim as stated fails: the id `GPU` contains no `-`,
`strings.LastIndex` returns -1 and the slice expression `id[0:-1]` panics. -/
theorem getRealDeviceID_panics_without_dash :
    LastIndex "GPU" '-' = -1 ∧ getRealDeviceID "GPU" = none := by
  decide

/-- C16 as amended: `getSharedDeviceID` returns a string for every uuid and every
share index: the digit loop ends within the bound it is given, a larger bound
changes nothing, and the formatted index has at least three bytes;
`getRealDeviceID` returns a string for every id that contains `-` and panics
for every id that does not. -/
theorem auxiliary_operations_defined :
    (∀ (uuid : String) (k : Int),
        (getSharedDeviceID uuid k).data = uuid.data ++ '-' :: fmt03d k ∧
        3 ≤ (fmt03d k).length ∧
        ∀ fuel, k.natAbs < fuel →
          fmtDigits fuel k.natAbs [] = fmtDigits (k.natAbs + 1) k.natAbs [])
    ∧ (∀ id : String, '-' ∈ id.data → ∃ r, getRealDeviceID id = some r)
    ∧ (∀ id : String, '-' ∉ id.data → getRealDeviceID id = none) := by
  refine ⟨?_, ?_, getRealDeviceID_absent⟩
  · intro uuid k
    exact ⟨rfl, fmt03d_length k, fun fuel h => fmtDigits_fuel fuel _ _ [] h (by omega)⟩
  · intro id h
    obtain ⟨r, _, hr, _⟩ := getRealDeviceID_present id h
    exact ⟨r, hr⟩

theorem registerLoop_no_slice (reg : Registrar) (devs : List Device) :
    ∀ (calls : List (String × Option String)) (out : List Device),
      (∀ d ∈ devs, ∃ u, getRealDeviceID d.ID = some u) →
      (registerLoop reg devs calls out).status ≠ .SliceOutOfRange := by
  induction devs with
  | nil => intro calls out _; simp [registerLoop]
  | cons d rest ih =>
    intro calls out hdec
    obtain ⟨u, hreal⟩ := hdec d (List.mem_cons_self _ _)
    have hrest : ∀ x ∈ rest, ∃ u, getRealDeviceID x.ID = some u :=
      fun x hx => hdec x (List.mem_cons_of_mem _ hx)
    cases hreg : reg (calls.map Prod.fst) u with
    | none => rw [registerLoop_ok reg d rest calls out u hreal hreg]; exact ih _ _ hrest
    | some msg =>
      by_cases hs : HasSuffix msg "Not Supported" = true
      · rw [registerLoop_unsupported reg d rest calls out u msg hreal hreg hs]
        exact ih _ _ hrest
      · rw [registerLoop_fatal reg d rest calls out u msg hreal hreg hs]; simp

theorem eventLoop_no_slice (devs : List Device)
    (hdec : ∀ d ∈ devs, ∃ u, getRealDeviceID d.ID = some u) :
    ∀ (ticks : List Tick) (t : Trace), t.status ≠ .SliceOutOfRange →
      (eventLoop devs ticks t).status ≠ .SliceOutOfRange := by
  intro ticks
  induction ticks with
  | nil => intro t ht; exact ht
  | cons tick rest ih =>
    intro t ht
    cases tick with
    | cancelled => simp [eventLoop]
    | wait w =>
      rw [eventLoop_wait_ok devs w rest t _ (iteration_ok_of_decodable devs w hdec)]
      exact ih _ ht

theorem decodable_getDevices_any (uuids : List String) (atoi : Option Int) :
    ∀ d ∈ getDevices uuids atoi, ∃ u, getRealDeviceID d.ID = some u := by
  cases atoi with
  | none =>
    intro d hd
    rw [getDevices_none] at hd
    obtain ⟨u, _, hu⟩ := real_of_mem_build uuids 5 d hd
    exact ⟨u, hu⟩
  | some K => exact decodable_getDevices uuids K

/-- C17: every id made by `getSharedDeviceID`, for every uuid, the empty one
included, and every integer share index, contains `-`, so `getRealDeviceID`
returns on it; and for every list built by `getDevices`, whatever the share
degree setting, no run of `watchXIDs` ends in the slice panic of
`getRealDeviceID`, in the registration loop or in the event loop. -/
theorem getSharedDeviceID_always_decodable :
    (∀ (uuid : String) (k : Int),
        '-' ∈ (getSharedDeviceID uuid k).data ∧
        ∃ r, getRealDeviceID (getSharedDeviceID uuid k) = some r)
    ∧ (∀ (uuids : List String) (atoi : Option Int) (reg : Registrar) (ticks : List Tick),
        (initPhase reg (getDevices uuids atoi)).status ≠ .SliceOutOfRange ∧
        (watchXIDs reg (getDevices uuids atoi) ticks).status ≠ .SliceOutOfRange) := by
  constructor
  · intro uuid k
    have hmem : '-' ∈ (getSharedDeviceID uuid k).data := by
      unfold getSharedDeviceID
      simp
    obtain ⟨r, _, hr, _⟩ := getRealDeviceID_present _ hmem
    exact ⟨hmem, r, hr⟩
  · intro uuids atoi reg ticks
    have hdec := decodable_getDevices_any uuids atoi
    have hinit : (initPhase reg (getDevices uuids atoi)).status ≠ .SliceOutOfRange :=
      registerLoop_no_slice reg _ [] [] hdec
    refine ⟨hinit, ?_⟩
    by_cases hrun : (initPhase reg (getDevices uuids atoi)).status = .Running
    · rw [watchXIDs_of_running reg _ ticks hrun]
      exact eventLoop_no_slice _ hdec ticks _ hinit
    · rw [watchXIDs_of_not_running reg _ ticks hrun]
      exact hinit

/-! ## The device list is only read (C18) -/

theorem registerLoop_emitted_sublist (reg : Registrar) (devs : List Device) :
    ∀ (calls : List (String × Option String)) (out : List Device),
      ∃ e, (registerLoop reg devs calls out).emitted = out ++ e ∧ List.Sublist e devs := by
  induction devs with
  | nil => intro calls out; exact ⟨[], by simp [registerLoop], List.Sublist.refl _⟩
  | cons d rest ih =>
    intro calls out
    cases hreal : getRealDeviceID d.ID with
    | none =>
      rw [registerLoop_slice reg d rest calls out hreal]
      exact ⟨[], by simp, List.nil_sublist _⟩
    | some u =>
      cases hreg : reg (calls.map Prod.fst) u with
      | none =>
        rw [registerLoop_ok reg d rest calls out u hreal hreg]
        obtain ⟨e, h1, h2⟩ := ih (calls ++ [(u, none)]) out
        exact ⟨e, h1, List.Sublist.cons d h2⟩
      | some msg =>
        by_cases hs : HasSuffix msg "Not Supported" = true
        · rw [registerLoop_unsupported reg d rest calls out u msg hreal hreg hs]
          obtain ⟨e, h1, h2⟩ := ih (calls ++ [(u, some msg)]) (out ++ [d])
          exact ⟨d :: e, by rw [h1]; simp, List.Sublist.cons₂ d h2⟩
        · rw [registerLoop_fatal reg d rest calls out u msg hreal hreg hs]
          exact ⟨[], by simp, List.nil_sublist _⟩

theorem sendMatching_sublist (uuid : String) (devs : List Device) :
    ∀ out : List Device,
      ∃ e, (sendMatching uuid devs out).1 = out ++ e ∧ List.Sublist e devs := by
  induction devs with
  | nil => intro out; exact ⟨[], by simp [sendMatching], List.Sublist.refl _⟩
  | cons d rest ih =>
    intro out
    unfold sendMatching
    cases hreal : getRealDeviceID d.ID with
    | none => exact ⟨[], by simp, List.nil_sublist _⟩
    | some u =>
      by_cases h : u = uuid
      · obtain ⟨e, h1, h2⟩ := ih (out ++ [d])
        refine ⟨d :: e, ?_, List.Sublist.cons₂ d h2⟩
        simp only [h, if_true]
        rw [h1]; simp
      · obtain ⟨e, h1, h2⟩ := ih out
        refine ⟨e, ?_, List.Sublist.cons d h2⟩
        simp only [h, if_false]
        exact h1

theorem iteration_sublist (devs : List Device) (w : WaitResult) :
    List.Sublist (iteration devs w).1 devs := by
  unfold iteration
  split
  · exact List.nil_sublist _
  · split
    · exact List.nil_sublist _
    · split
      · simp [sendAll_eq]
      · split
        · simp [sendAll_eq]
        · obtain ⟨e, h1, h2⟩ := sendMatching_sublist _ devs []
          rw [h1]
          simpa using h2

theorem eventLoop_emitted_mem (devs : List Device) :
    ∀ (ticks : List Tick) (t : Trace),
      ∀ d ∈ (eventLoop devs ticks t).emitted, d ∈ t.emitted ∨ d ∈ devs := by
  intro ticks
  induction ticks with
  | nil => intro t d hd; exact Or.inl hd
  | cons tick rest ih =>
    intro t d hd
    cases tick with
    | cancelled => exact Or.inl hd
    | wait w =>
      have hsub := iteration_sublist devs w
      rcases iteration_cases devs w with ⟨out, hit⟩ | ⟨out, hit⟩
      · rw [eventLoop_wait_ok devs w rest t out hit] at hd
        rw [hit] at hsub
        rcases ih _ d hd with h | h
        · rcases List.mem_append.mp h with h | h
          · exact Or.inl h
          · exact Or.inr (hsub.subset h)
        · exact Or.inr h
      · rw [eventLoop_wait_slice devs w rest t out hit] at hd
        rw [hit] at hsub
        rcases List.mem_append.mp hd with h | h
        · exact Or.inl h
        · exact Or.inr (hsub.subset h)

/-- Every record a run sends is an element of the device list; the
initialization sends a sublist of the list and so does every pass of the event
loop, in list order. -/
theorem watchXIDs_sends_elements (reg : Registrar) (devs : List Device) (ticks : List Tick) :
    (∀ d ∈ (watchXIDs reg devs ticks).emitted, d ∈ devs)
    ∧ List.Sublist (initPhase reg devs).emitted devs
    ∧ ∀ w : WaitResult, List.Sublist (iteration devs w).1 devs := by
  have hinit : List.Sublist (initPhase reg devs).emitted devs := by
    obtain ⟨e, h1, h2⟩ := registerLoop_emitted_sublist reg devs [] []
    unfold initPhase
    rw [h1]
    simpa using h2
  refine ⟨?_, hinit, iteration_sublist devs⟩
  intro d hd
  by_cases hrun : (initPhase reg devs).status = .Running
  · rw [watchXIDs_of_running reg devs ticks hrun] at hd
    rcases eventLoop_emitted_mem devs ticks _ d hd with h | h
    · exact hinit.subset h
    · exact h
  · rw [watchXIDs_of_not_running reg devs ticks hrun] at hd
    exact hinit.subset hd

/-! ## The ids are pairwise distinct (C19) -/

theorem fmtDigits_append (fuel : Nat) : ∀ (u : Nat) (buf : List Char),
    fmtDigits fuel u buf = fmtDigits fuel u [] ++ buf := by
  induction fuel with
  | zero => intro u buf; rfl
  | succ fuel ih =>
    intro u buf
    unfold fmtDigits
    split
    · rw [ih _ (_ :: buf), ih _ [_]]
      simp
    · rfl

theorem digitsValue_snoc (l : List Char) (c : Char) :
    digitsValue (l ++ [c]) = digitsValue l * 10 + (c.toNat - '0'.toNat) := by
  simp [digitsValue, List.foldl_append]

theorem digitChar_value (d : Nat) (h : d < 10) :
    (Nat.digitChar d).toNat - '0'.toNat = d := by
  interval_cases d <;> rfl

theorem digitsValue_fmtDigits (u : Nat) : digitsValue (fmtDigits (u + 1) u []) = u := by
  induction u using Nat.strong_induction_on with
  | _ u ih =>
    rw [fmtDigits_step]
    by_cases h : 10 ≤ u
    · rw [if_pos h, fmtDigits_append, digitsValue_snoc, ih (u / 10) (by omega),
        digitChar_value _ (by omega)]
      omega
    · rw [if_neg h]
      simp only [digitsValue, List.foldl_cons, List.foldl_nil]
      rw [digitChar_value u (by omega)]
      omega

theorem digitsValue_zeros (n : Nat) (l : List Char) :
    digitsValue (List.replicate n '0' ++ l) = digitsValue l := by
  induction n with
  | zero => rfl
  | succ n ih =>
    rw [List.replicate_succ, List.cons_append]
    unfold digitsValue at ih ⊢
    rw [List.foldl_cons]
    exact ih

theorem digitsValue_fmt03d (k : Int) (hk : 0 ≤ k) : (digitsValue (fmt03d k) : Int) = k := by
  unfold fmt03d
  simp only [not_lt.mpr hk, if_false]
  rw [digitsValue_zeros, digitsValue_fmtDigits]
  omega

theorem getSharedDeviceID_inj (u1 u2 : String) (k1 k2 : Int) (h1 : 0 ≤ k1) (h2 : 0 ≤ k2)
    (h : getSharedDeviceID u1 k1 = getSharedDeviceID u2 k2) : u1 = u2 ∧ k1 = k2 := by
  have hu : u1 = u2 := by
    have e1 := getRealDeviceID_getSharedDeviceID u1 k1 h1
    have e2 := getRealDeviceID_getSharedDeviceID u2 k2 h2
    rw [h, e2] at e1
    exact (Option.some.inj e1).symm
  refine ⟨hu, ?_⟩
  subst hu
  have hd : (getSharedDeviceID u1 k1).data = (getSharedDeviceID u1 k2).data := by rw [h]
  unfold getSharedDeviceID at hd
  have hf : fmt03d k1 = fmt03d k2 := by
    have := List.append_cancel_left hd
    exact (List.cons.inj this).2
  rw [← digitsValue_fmt03d k1 h1, ← digitsValue_fmt03d k2 h2, hf]

theorem ids_nodup (uuids : List String) (K : Int) (hnd : uuids.Nodup) :
    ((BuildVirtualDevices uuids K).map Device.ID).Nodup := by
  unfold BuildVirtualDevices
  rw [List.map_flatMap, List.nodup_flatMap]
  constructor
  · intro u _
    unfold sharesOf
    rw [List.map_map]
    refine List.Nodup.map_on ?_ (List.nodup_range _)
    intro i _ j _ hij
    have := (getSharedDeviceID_inj u u _ _ (by omega) (by omega) hij).2
    omega
  · refine List.Pairwise.imp ?_ hnd
    intro u v huv
    show List.Disjoint _ _
    intro x hxu hxv
    obtain ⟨d1, hd1, rfl⟩ := List.mem_map.mp hxu
    obtain ⟨d2, hd2, he⟩ := List.mem_map.mp hxv
    have e1 := real_of_mem_sharesOf K u d1 hd1
    have e2 := real_of_mem_sharesOf K v d2 hd2
    rw [he, e1] at e2
    exact huv (Option.some.inj e2)

/-- C19: `getSharedDeviceID` is injective on the pairs of a uuid and a share
index `k ≥ 0`, whatever the number of digits of `k`; so for pairwise distinct
physical uuids and every share degree `K ≥ 1`, also above 999, the ids of the
list built by `getDevices` are pairwise distinct, and so are its records. -/
theorem getSharedDeviceID_injective :
    (∀ (u1 u2 : String) (k1 k2 : Int), 0 ≤ k1 → 0 ≤ k2 →
      getSharedDeviceID u1 k1 = getSharedDeviceID u2 k2 → u1 = u2 ∧ k1 = k2)
    ∧ (∀ (uuids : List String) (K : Int), uuids.Nodup → 1 ≤ K →
        ((getDevices uuids (some K)).map Device.ID).Nodup ∧
        (getDevices uuids (some K)).Nodup) := by
  refine ⟨getSharedDeviceID_inj, ?_⟩
  intro uuids K hnd _
  have h : ((getDevices uuids (some K)).map Device.ID).Nodup := by
    rw [getDevices_eq]
    exact ids_nodup uuids K hnd
  exact ⟨h, List.Nodup.of_map _ h⟩

/-! ## The run over the memory (C18) -/

theorem registerLoopMem_slice (reg : Registrar) (d : Nat) (rest : List Nat) (r : Run)
    (hreal : getRealDeviceID (r.memory.record d).ID = none) :
    registerLoopMem reg (d :: rest) r = { r with status := .SliceOutOfRange } := by
  simp only [registerLoopMem, hreal]

theorem registerLoopMem_ok (reg : Registrar) (d : Nat) (rest : List Nat) (r : Run) (u : String)
    (hreal : getRealDeviceID (r.memory.record d).ID = some u)
    (hreg : reg (r.registered.map Prod.fst) u = none) :
    registerLoopMem reg (d :: rest) r =
      registerLoopMem reg rest { r with registered := r.registered ++ [(u, none)] } := by
  simp only [registerLoopMem, hreal, hreg]

theorem registerLoopMem_unsupported (reg : Registrar) (d : Nat) (rest : List Nat) (r : Run)
    (u msg : String) (hreal : getRealDeviceID (r.memory.record d).ID = some u)
    (hreg : reg (r.registered.map Prod.fst) u = some msg)
    (hs : HasSuffix msg "Not Supported" = true) :
    registerLoopMem reg (d :: rest) r =
      registerLoopMem reg rest
        { r with registered := r.registered ++ [(u, some msg)], sent := r.sent ++ [d] } := by
  simp only [registerLoopMem, hreal, hreg, hs, if_true]

theorem registerLoopMem_fatal (reg : Registrar) (d : Nat) (rest : List Nat) (r : Run)
    (u msg : String) (hreal : getRealDeviceID (r.memory.record d).ID = some u)
    (hreg : reg (r.registered.map Prod.fst) u = some msg)
    (hs : ¬ HasSuffix msg "Not Supported" = true) :
    registerLoopMem reg (d :: rest) r =
      { r with registered := r.registered ++ [(u, some msg)], status := .Fatal msg } := by
  simp [registerLoopMem, hreal, hreg, hs]

/-- The registration loop over the memory leaves the memory as it found it, sends
addresses of the slice in slice order, and shows the trace of `registerLoop` on
the list read from the memory. -/
theorem registerLoopMem_sim (reg : Registrar) (ds : List Nat) :
    ∀ r : Run, r.iterations = 0 → r.status = .Running →
      (registerLoopMem reg ds r).memory = r.memory ∧
      (registerLoopMem reg ds r).toTrace =
        registerLoop reg (ds.map r.memory.record) r.registered
          (r.sent.map r.memory.record) ∧
      ∃ e, (registerLoopMem reg ds r).sent = r.sent ++ e ∧ List.Sublist e ds := by
  induction ds with
  | nil =>
    intro r h0 hs
    refine ⟨rfl, ?_, [], by simp [registerLoopMem], List.Sublist.refl _⟩
    simp [registerLoopMem, registerLoop, Run.toTrace, h0, hs]
  | cons d rest ih =>
    intro r h0 hs
    cases hreal : getRealDeviceID (r.memory.record d).ID with
    | none =>
      rw [registerLoopMem_slice reg d rest r hreal, List.map_cons,
        registerLoop_slice reg _ _ _ _ hreal]
      refine ⟨rfl, ?_, [], by simp, List.nil_sublist _⟩
      simp [Run.toTrace, h0]
    | some u =>
      cases hreg : reg (r.registered.map Prod.fst) u with
      | none =>
        rw [registerLoopMem_ok reg d rest r u hreal hreg, List.map_cons,
          registerLoop_ok reg _ _ _ _ u hreal hreg]
        obtain ⟨h1, h2, e, h3, h4⟩ :=
          ih { r with registered := r.registered ++ [(u, none)] } h0 hs
        exact ⟨h1, h2, e, h3, List.Sublist.cons d h4⟩
      | some msg =>
        by_cases hsuf : HasSuffix msg "Not Supported" = true
        · rw [registerLoopMem_unsupported reg d rest r u msg hreal hreg hsuf, List.map_cons,
            registerLoop_unsupported reg _ _ _ _ u msg hreal hreg hsuf]
          obtain ⟨h1, h2, e, h3, h4⟩ :=
            ih { r with registered := r.registered ++ [(u, some msg)], sent := r.sent ++ [d] }
              h0 hs
          refine ⟨h1, ?_, d :: e, ?_, List.Sublist.cons₂ d h4⟩
          · rw [h2]
            simp
          · rw [h3]
            simp
        · rw [registerLoopMem_fatal reg d rest r u msg hreal hreg hsuf, List.map_cons,
            registerLoop_fatal reg _ _ _ _ u msg hreal hreg hsuf]
          refine ⟨rfl, ?_, [], by simp, List.nil_sublist _⟩
          simp [Run.toTrace, h0]

theorem sendAllMem_eq (ds : List Nat) :
    ∀ r : Run, sendAllMem ds r = { r with sent := r.sent ++ ds } := by
  induction ds with
  | nil => intro r; simp [sendAllMem]
  | cons d rest ih => intro r; simp [sendAllMem, ih]

theorem sendMatchingMem_sim (uuid : String) (ds : List Nat) :
    ∀ (r : Run) (out : List Device),
      ∃ e, (sendMatchingMem uuid ds r).1 = { r with sent := r.sent ++ e } ∧
        List.Sublist e ds ∧
        sendMatching uuid (ds.map r.memory.record) out =
          (out ++ e.map r.memory.record, (sendMatchingMem uuid ds r).2) := by
  induction ds with
  | nil =>
    intro r out
    exact ⟨[], by simp [sendMatchingMem], List.Sublist.refl _, by simp [sendMatchingMem, sendMatching]⟩
  | cons d rest ih =>
    intro r out
    cases hreal : getRealDeviceID (r.memory.record d).ID with
    | none =>
      exact ⟨[], by simp [sendMatchingMem, hreal], List.nil_sublist _,
        by simp [sendMatchingMem, sendMatching, hreal]⟩
    | some real =>
      by_cases h : real = uuid
      · obtain ⟨e, h1, h2, h3⟩ := ih { r with sent := r.sent ++ [d] } (out ++ [r.memory.record d])
        refine ⟨d :: e, ?_, List.Sublist.cons₂ d h2, ?_⟩
        · simp only [sendMatchingMem, hreal, h, if_true]
          rw [h1]
          simp
        · simp only [sendMatchingMem, sendMatching, List.map_cons, hreal, h, if_true]
          rw [h3]
          simp
      · obtain ⟨e, h1, h2, h3⟩ := ih r out
        refine ⟨e, ?_, List.Sublist.cons d h2, ?_⟩
        · simp only [sendMatchingMem, hreal, h, if_false]
          exact h1
        · simp only [sendMatchingMem, sendMatching, List.map_cons, hreal, h, if_false]
          exact h3

/-- One pass over the memory changes nothing but the addresses sent, which are a
sublist of the backing array, and sends what `iteration` sends on the list read
from the memory. -/
theorem iterationMem_sim (w : WaitResult) (r : Run) :
    ∃ e, (iterationMem w r).1 = { r with sent := r.sent ++ e } ∧
      List.Sublist e r.memory.devs ∧
      iteration r.memory.list w = (e.map r.memory.record, (iterationMem w r).2) := by
  unfold iterationMem iteration
  by_cases h1 : w.err ≠ none ∧ w.e.Etype ≠ XidCriticalError
  · rw [if_pos h1, if_pos h1]
    exact ⟨[], by simp, List.nil_sublist _, rfl⟩
  · rw [if_neg h1, if_neg h1]
    by_cases h2 : w.e.Edata = 31 ∨ w.e.Edata = 43 ∨ w.e.Edata = 45
    · rw [if_pos h2, if_pos h2]
      exact ⟨[], by simp, List.nil_sublist _, rfl⟩
    · rw [if_neg h2, if_neg h2]
      cases hu : w.e.UUID with
      | none =>
        exact ⟨r.memory.devs, by simp [sendAllMem_eq], List.Sublist.refl _,
          by simp [sendAll_eq, Memory.list]⟩
      | some uuid =>
        by_cases h3 : uuid.length = 0
        · simp only [h3, if_true]
          exact ⟨r.memory.devs, by simp [sendAllMem_eq], List.Sublist.refl _,
            by simp [sendAll_eq, Memory.list]⟩
        · simp only [h3, if_false]
          obtain ⟨e, e1, e2, e3⟩ := sendMatchingMem_sim uuid r.memory.devs r []
          exact ⟨e, e1, e2, by rw [Memory.list, e3]; simp⟩

theorem eventLoopMem_sim :
    ∀ (ticks : List Tick) (r : Run),
      (eventLoopMem ticks r).memory = r.memory ∧
      (eventLoopMem ticks r).toTrace = eventLoop r.memory.list ticks r.toTrace ∧
      ∀ p ∈ (eventLoopMem ticks r).sent, p ∈ r.sent ∨ p ∈ r.memory.devs := by
  intro ticks
  induction ticks with
  | nil => intro r; exact ⟨rfl, rfl, fun p hp => Or.inl hp⟩
  | cons tick rest ih =>
    intro r
    cases tick with
    | cancelled => exact ⟨rfl, rfl, fun p hp => Or.inl hp⟩
    | wait w =>
      obtain ⟨e, e1, e2, e3⟩ := iterationMem_sim w r
      have hpair : iterationMem w r = ({ r with sent := r.sent ++ e }, (iterationMem w r).2) :=
        Prod.ext e1 rfl
      cases hb : (iterationMem w r).2 with
      | true =>
        rw [hb] at hpair e3
        have hstep : eventLoopMem (Tick.wait w :: rest) r =
            eventLoopMem rest
              { r with sent := r.sent ++ e, iterations := r.iterations + 1 } := by
          simp only [eventLoopMem, hpair]
        rw [hstep, eventLoop_wait_ok r.memory.list w rest r.toTrace _ e3]
        obtain ⟨i1, i2, i3⟩ :=
          ih { r with sent := r.sent ++ e, iterations := r.iterations + 1 }
        refine ⟨i1, ?_, ?_⟩
        · rw [i2]
          simp [Run.toTrace]
        · intro p hp
          rcases i3 p hp with h | h
          · rcases List.mem_append.mp h with h | h
            · exact Or.inl h
            · exact Or.inr (e2.subset h)
          · exact Or.inr h
      | false =>
        rw [hb] at hpair e3
        have hstep : eventLoopMem (Tick.wait w :: rest) r =
            { r with sent := r.sent ++ e, iterations := r.iterations + 1,
                     status := .SliceOutOfRange } := by
          simp only [eventLoopMem, hpair]
        rw [hstep, eventLoop_wait_slice r.memory.list w rest r.toTrace _ e3]
        refine ⟨rfl, ?_, ?_⟩
        · simp [Run.toTrace]
        · intro p hp
          rcases List.mem_append.mp hp with h | h
          · exact Or.inl h
          · exact Or.inr (e2.subset h)

theorem Memory.list_ofList (devs : List Device) : (Memory.ofList devs).list = devs := by
  unfold Memory.list Memory.ofList
  apply List.ext_getElem
  · simp
  · intro i h1 h2
    simp [List.getD_eq_getElem?_getD, List.getElem?_eq_getElem h2]

theorem watchXIDsMem_of_running (reg : Registrar) (m : Memory) (ticks : List Tick)
    (h : (registerLoopMem reg m.devs
      { memory := m, registered := [], sent := [], iterations := 0,
        status := .Running }).status = .Running) :
    watchXIDsMem reg m ticks = eventLoopMem ticks (registerLoopMem reg m.devs
      { memory := m, registered := [], sent := [], iterations := 0, status := .Running }) := by
  simp only [watchXIDsMem, h]

theorem watchXIDsMem_of_not_running (reg : Registrar) (m : Memory) (ticks : List Tick)
    (h : (registerLoopMem reg m.devs
      { memory := m, registered := [], sent := [], iterations := 0,
        status := .Running }).status ≠ .Running) :
    watchXIDsMem reg m ticks = registerLoopMem reg m.devs
      { memory := m, registered := [], sent := [], iterations := 0, status := .Running } := by
  cases hs : (registerLoopMem reg m.devs
      { memory := m, registered := [], sent := [], iterations := 0,
        status := .Running }).status with
  | Running => exact absurd hs h
  | Stopped => simp only [watchXIDsMem, hs]
  | Fatal msg => simp only [watchXIDsMem, hs]
  | SliceOutOfRange => simp only [watchXIDsMem, hs]

theorem watchXIDsMem_sim (reg : Registrar) (m : Memory) (ticks : List Tick) :
    (watchXIDsMem reg m ticks).memory = m ∧
    (watchXIDsMem reg m ticks).toTrace = watchXIDs reg m.list ticks ∧
    ∀ p ∈ (watchXIDsMem reg m ticks).sent, p ∈ m.devs := by
  obtain ⟨h1, h2, e, h3, h4⟩ := registerLoopMem_sim reg m.devs
    { memory := m, registered := [], sent := [], iterations := 0, status := .Running } rfl rfl
  have hinit : (registerLoopMem reg m.devs
      { memory := m, registered := [], sent := [], iterations := 0,
        status := .Running }).toTrace = initPhase reg m.list := h2
  have hstatus := congrArg Trace.status hinit
  have hsent : ∀ p ∈ (registerLoopMem reg m.devs
      { memory := m, registered := [], sent := [], iterations := 0,
        status := .Running }).sent, p ∈ m.devs := by
    intro p hp
    rw [h3] at hp
    exact h4.subset (by simpa using hp)
  by_cases hrun : (registerLoopMem reg m.devs
      { memory := m, registered := [], sent := [], iterations := 0,
        status := .Running }).status = .Running
  · have hrun2 : (initPhase reg m.list).status = .Running := by
      rw [← hstatus]; exact hrun
    obtain ⟨i1, i2, i3⟩ := eventLoopMem_sim ticks (registerLoopMem reg m.devs
      { memory := m, registered := [], sent := [], iterations := 0, status := .Running })
    rw [watchXIDsMem_of_running reg m ticks hrun, watchXIDs_of_running reg m.list ticks hrun2]
    refine ⟨i1.trans h1, ?_, ?_⟩
    · rw [i2, hinit, h1]
    · intro p hp
      rcases i3 p hp with h | h
      · exact hsent p h
      · rw [h1] at h; exact h
  · have hrun2 : (initPhase reg m.list).status ≠ .Running := by
      rw [← hstatus]; exact hrun
    rw [watchXIDsMem_of_not_running reg m ticks hrun,
      watchXIDs_of_not_running reg m.list ticks hrun2]
    exact ⟨h1, hinit, hsent⟩

/-- C18: `watchXIDs` treats the device list as read-only.  For every registration
oracle, every sequence of ticks and every memory the list lies in, the memory
after the run is the memory before it, so the list read after the run is the
list read before it, no id and no health field changed; every address sent is an
address of the slice, every record sent, read after the run, is an element of
the input list as it is there, and what the run over the memory shows is the run
of `watchXIDs` on the list.  For every device list: the list lies in a memory,
every record a run sends is an element of the list, and the initialization and
every pass of the event loop send a sublist of the list, in list order. -/
theorem watchXIDs_reads_only (reg : Registrar) (ticks : List Tick) :
    (∀ m : Memory,
        (watchXIDsMem reg m ticks).memory = m
        ∧ (watchXIDsMem reg m ticks).memory.list = m.list
        ∧ (∀ a : Nat,
            ((watchXIDsMem reg m ticks).memory.record a).ID = (m.record a).ID ∧
            ((watchXIDsMem reg m ticks).memory.record a).Health = (m.record a).Health)
        ∧ (∀ p ∈ (watchXIDsMem reg m ticks).sent, p ∈ m.devs)
        ∧ (∀ d ∈ (watchXIDsMem reg m ticks).toTrace.emitted, d ∈ m.list)
        ∧ (watchXIDsMem reg m ticks).toTrace = watchXIDs reg m.list ticks)
    ∧ (∀ devs : List Device,
        (Memory.ofList devs).list = devs
        ∧ (watchXIDsMem reg (Memory.ofList devs) ticks).memory.list = devs
        ∧ (watchXIDsMem reg (Memory.ofList devs) ticks).toTrace = watchXIDs reg devs ticks
        ∧ (∀ d ∈ (watchXIDs reg devs ticks).emitted, d ∈ devs)
        ∧ List.Sublist (initPhase reg devs).emitted devs
        ∧ ∀ w : WaitResult, List.Sublist (iteration devs w).1 devs) := by
  constructor
  · intro m
    obtain ⟨h1, h2, h3⟩ := watchXIDsMem_sim reg m ticks
    refine ⟨h1, by rw [h1], fun a => by rw [h1]; exact ⟨rfl, rfl⟩, h3, ?_, h2⟩
    intro d hd
    obtain ⟨p, hp, rfl⟩ := List.mem_map.mp hd
    rw [h1]
    exact List.mem_map.mpr ⟨p, h3 p hp, rfl⟩
  · intro devs
    obtain ⟨h1, h2, _⟩ := watchXIDsMem_sim reg (Memory.ofList devs) ticks
    obtain ⟨e1, e2, e3⟩ := watchXIDs_sends_elements reg devs ticks
    refine ⟨Memory.list_ofList devs, ?_, ?_, e1, e2, e3⟩
    · rw [h1, Memory.list_ofList]
    · rw [h2, Memory.list_ofList]

end Nvidia
